import Mathlib

/-!
# Verification of the `data-profile` record profiler

A shallow embedding of `src/index.ts` (the whole analytical engine: type and
presence scanning, numeric and categorical statistics, pairwise association,
key and functional-dependency detection, missingness patterns, outliers and
categorical entropy), together with proofs settling the frozen claims about
the natural-language specification.

Modelling conventions, chosen once for the whole file:

* JavaScript numbers are modelled exactly.  A finite number is an unreduced
  fraction `Frac` (integer numerator, positive integer denominator); the
  non-finite values `NaN`, `+Infinity` and `-Infinity` are separate
  constructors of `JNum`, and the arithmetic of `JNum` follows the IEEE-754
  special-value rules (`NaN` propagation, `Infinity - Infinity = NaN`, ...).
  Rounding and overflow of 64-bit floats are not modelled: arithmetic on
  finite values is exact.  `Math.sqrt` is modelled by a rational stand-in
  `Frac.qsqrt`; every property stated in this file depends only on the
  zero/sign/NaN classification of square roots, which the stand-in preserves
  (`Real.sqrt x = 0 ↔ x = 0` and `Real.sqrt x > 0 ↔ x > 0` for `x ≥ 0`).
  Similarly `Math.log2` (used only inside the entropy component, whose
  numeric output no claim mentions) is modelled by a stand-in.
* A JavaScript runtime value is `JSValue`: a number, a string, a boolean,
  `null`, `undefined`, or any other non-null object (`obj`), the latter
  carried only as its canonical serialization (objects are never decomposed
  by the program, only type-tagged and compared/stringified); reference
  identity of objects is not modelled, structurally equal objects coincide.
* A record (row) is an association list `List (String × JSValue)`; reading an
  absent key yields `undefined`, exactly as in JavaScript.  A JS `Map`/`Set`
  (insertion-ordered) is an association list updated in place.
* `Array.prototype.sort` is modelled by a stable insertion sort with the
  comparator translated to a `Bool` relation; only sortedness, stability and
  permutation of the result are observable in the source's uses.
* Number-to-string conversion renders the exact fraction canonically; it
  agrees with JavaScript on integers and on the distinctness patterns the
  program relies on (distinct numbers stringify distinctly).
-/

/-- An exact (unreduced) fraction: numerator, positive denominator.  Models a
finite JavaScript number; arithmetic is exact rather than 64-bit rounded. -/
structure Frac where
  n : Int
  d : Int
  hd : 0 < d

instance : DecidableEq Frac := fun a b =>
  match a, b with
  | ⟨n₁, d₁, _⟩, ⟨n₂, d₂, _⟩ =>
    if h : n₁ = n₂ ∧ d₁ = d₂ then isTrue (by obtain ⟨rfl, rfl⟩ := h; rfl)
    else isFalse (by intro e; cases e; exact h ⟨rfl, rfl⟩)

def Frac.ofInt (k : Int) : Frac := ⟨k, 1, Int.one_pos⟩

/-- Build a fraction from a numerator/denominator pair, defaulting to
denominator 1 if the given denominator is not positive (never the case at the
call sites, which use literal positive denominators such as `3/2`). -/
def Frac.ofPair (num den : Int) : Frac :=
  if h : 0 < den then ⟨num, den, h⟩ else ⟨num, 1, Int.one_pos⟩

def Frac.add (a b : Frac) : Frac := ⟨a.n * b.d + b.n * a.d, a.d * b.d, mul_pos a.hd b.hd⟩

def Frac.neg (a : Frac) : Frac := ⟨-a.n, a.d, a.hd⟩

def Frac.sub (a b : Frac) : Frac := a.add b.neg

def Frac.mul (a b : Frac) : Frac := ⟨a.n * b.n, a.d * b.d, mul_pos a.hd b.hd⟩

/-- Exact division.  Meaningful only when the divisor is nonzero; division by
a zero number is intercepted by the IEEE rules in `JNum.jdiv` before this is
reached, so the fallback branch is unreachable from the embedded program. -/
def Frac.div (a b : Frac) : Frac :=
  if h : 0 < b.n then ⟨a.n * b.d, a.d * b.n, mul_pos a.hd h⟩
  else if h2 : b.n < 0 then ⟨-(a.n * b.d), a.d * (-b.n), mul_pos a.hd (by omega)⟩
  else ⟨0, 1, Int.one_pos⟩

def Frac.ble (a b : Frac) : Bool := decide (a.n * b.d ≤ b.n * a.d)

def Frac.blt (a b : Frac) : Bool := decide (a.n * b.d < b.n * a.d)

def Frac.beq (a b : Frac) : Bool := decide (a.n * b.d = b.n * a.d)

def Frac.floor (a : Frac) : Int := Int.fdiv a.n a.d

/-- Rational stand-in for `Math.sqrt` on nonnegative finite inputs.  Every
property stated in this development depends only on whether a square root is
zero, positive or `NaN`, never on its numeric value; the identity preserves
exactly that classification (`Real.sqrt x = 0 ↔ x = 0`, `Real.sqrt x > 0 ↔
x > 0` for `x ≥ 0`). -/
def Frac.qsqrt (a : Frac) : Frac := a

/-- Rational stand-in for `Math.log2`, used only inside the categorical
entropy component, whose numeric output no stated property mentions. -/
def Frac.qlog2 (_ : Frac) : Frac := Frac.ofInt 0

/-- The rational value denoted by a fraction, for specification-level
reasoning. -/
def Frac.val (a : Frac) : ℚ := (a.n : ℚ) / (a.d : ℚ)

/-- A JavaScript number: an exact finite value or one of the three IEEE-754
special values. -/
inductive JNum where
  | fin (f : Frac)
  | nan
  | inf
  | ninf
deriving DecidableEq

def JNum.isNaN : JNum → Bool
  | .nan => true
  | _ => false

def JNum.isFinite : JNum → Bool
  | .fin _ => true
  | _ => false

def JNum.jneg : JNum → JNum
  | .fin f => .fin f.neg
  | .nan => .nan
  | .inf => .ninf
  | .ninf => .inf

def JNum.jadd : JNum → JNum → JNum
  | .nan, _ => .nan
  | _, .nan => .nan
  | .inf, .ninf => .nan
  | .ninf, .inf => .nan
  | .inf, _ => .inf
  | _, .inf => .inf
  | .ninf, _ => .ninf
  | _, .ninf => .ninf
  | .fin a, .fin b => .fin (a.add b)

def JNum.jsub (a b : JNum) : JNum := a.jadd b.jneg

def JNum.jmul : JNum → JNum → JNum
  | .nan, _ => .nan
  | _, .nan => .nan
  | .fin a, .fin b => .fin (a.mul b)
  | .inf, .inf => .inf
  | .inf, .ninf => .ninf
  | .ninf, .inf => .ninf
  | .ninf, .ninf => .inf
  | .inf, .fin b => if b.n = 0 then .nan else if 0 < b.n then .inf else .ninf
  | .fin a, .inf => if a.n = 0 then .nan else if 0 < a.n then .inf else .ninf
  | .ninf, .fin b => if b.n = 0 then .nan else if 0 < b.n then .ninf else .inf
  | .fin a, .ninf => if a.n = 0 then .nan else if 0 < a.n then .ninf else .inf

def JNum.jdiv : JNum → JNum → JNum
  | .nan, _ => .nan
  | _, .nan => .nan
  | .inf, .inf => .nan
  | .inf, .ninf => .nan
  | .ninf, .inf => .nan
  | .ninf, .ninf => .nan
  | .fin _, .inf => .fin (Frac.ofInt 0)
  | .fin _, .ninf => .fin (Frac.ofInt 0)
  | .inf, .fin b => if 0 ≤ b.n then .inf else .ninf
  | .ninf, .fin b => if 0 ≤ b.n then .ninf else .inf
  | .fin a, .fin b =>
    if b.n = 0 then (if a.n = 0 then .nan else if 0 < a.n then .inf else .ninf)
    else .fin (a.div b)

def JNum.jsqrt : JNum → JNum
  | .nan => .nan
  | .inf => .inf
  | .ninf => .nan
  | .fin a => if a.n < 0 then .nan else .fin a.qsqrt

/-- Strict comparison `<`; any comparison involving `NaN` is false. -/
def JNum.jlt : JNum → JNum → Bool
  | .nan, _ => false
  | _, .nan => false
  | .fin a, .fin b => a.blt b
  | .inf, _ => false
  | .ninf, .ninf => false
  | .ninf, _ => true
  | .fin _, .inf => true
  | .fin _, .ninf => false

/-- Strict equality `===`; `NaN` is not equal to anything, including itself. -/
def JNum.jbeq : JNum → JNum → Bool
  | .nan, _ => false
  | _, .nan => false
  | .fin a, .fin b => a.beq b
  | .inf, .inf => true
  | .ninf, .ninf => true
  | _, _ => false

/-- `Math.min` of two values (`NaN`-propagating). -/
def JNum.jmin (a b : JNum) : JNum :=
  match a, b with
  | .nan, _ => .nan
  | _, .nan => .nan
  | x, y => if JNum.jlt x y then x else y

/-- `Math.max` of two values (`NaN`-propagating). -/
def JNum.jmax (a b : JNum) : JNum :=
  match a, b with
  | .nan, _ => .nan
  | _, .nan => .nan
  | x, y => if JNum.jlt x y then y else x

def JNum.jabs : JNum → JNum
  | .nan => .nan
  | .inf => .inf
  | .ninf => .inf
  | .fin a => if a.n < 0 then .fin a.neg else .fin a

/-- A JavaScript runtime value as the profiler can observe it. -/
inductive JSValue where
  | num (j : JNum)
  | str (s : String)
  | bool (b : Bool)
  | null
  | undef
  | obj (json : String)
deriving DecidableEq

/-- The `typeof` discriminator (recall `typeof null === 'object'`). -/
def typeOf : JSValue → String
  | .num _ => "number"
  | .str _ => "string"
  | .bool _ => "boolean"
  | .null => "object"
  | .undef => "undefined"
  | .obj _ => "object"

/-- `v !== undefined && v !== null`, the program's notion of a present
value. -/
def isPresent : JSValue → Bool
  | .undef => false
  | .null => false
  | _ => true

def isUndef : JSValue → Bool
  | .undef => true
  | _ => false

/-- The SameValueZero equality used by JavaScript `Set` membership: numeric
equality on numbers with `NaN` equal to itself, structural elsewhere (object
reference identity is modelled structurally, see the header comment). -/
def sameValueZero : JSValue → JSValue → Bool
  | .num x, .num y =>
    match x, y with
    | .nan, .nan => true
    | .inf, .inf => true
    | .ninf, .ninf => true
    | .fin f, .fin g => f.beq g
    | _, _ => false
  | .str s, .str t => s == t
  | .bool x, .bool y => x == y
  | .null, .null => true
  | .undef, .undef => true
  | .obj s, .obj t => s == t
  | _, _ => false

/-- Canonical rendering of a JavaScript number as a string (reduced
fraction).  Agrees with JavaScript on integers and special values, and like
JavaScript it maps distinct numbers to distinct strings. -/
def JNum.toDisplay : JNum → String
  | .nan => "NaN"
  | .inf => "Infinity"
  | .ninf => "-Infinity"
  | .fin f =>
    let g : Int := Int.ofNat (Nat.gcd f.n.natAbs f.d.natAbs)
    let num := f.n / g
    let den := f.d / g
    if den = 1 then toString num else toString num ++ "/" ++ toString den

/-- `String(v)` / `v.toString()` on the values the program stringifies. -/
def jsToString : JSValue → String
  | .num j => j.toDisplay
  | .str s => s
  | .bool b => if b then "true" else "false"
  | .obj j => j
  | .null => "null"
  | .undef => "undefined"

/-- The serialization key used by the dependency detector:
`typeof v === 'object' && v !== null ? JSON.stringify(v) : String(v)`. -/
def fdKey : JSValue → String
  | .obj j => j
  | v => jsToString v

/-- `row[col]`: reading an absent key yields `undefined`. -/
def rowGet (row : List (String × JSValue)) (col : String) : JSValue :=
  match row.find? (fun e => e.1 == col) with
  | some e => e.2
  | none => JSValue.undef

/-- `col in row`. -/
def rowHas (row : List (String × JSValue)) (col : String) : Bool :=
  (row.find? (fun e => e.1 == col)).isSome

/-- First-occurrence deduplication with an explicit equality — the contents
of a JavaScript `Set` built by repeated insertion, in insertion order. -/
def dedupFirstBy (beq : α → α → Bool) (l : List α) : List α :=
  l.foldl (fun acc x => if acc.any (fun y => beq y x) then acc else acc ++ [x]) []

/-- Insert into a sorted list: the inner step of the sort model. -/
def insertLe (le : α → α → Bool) (x : α) : List α → List α
  | [] => [x]
  | y :: ys => if le x y then x :: y :: ys else y :: insertLe le x ys

/-- Stable insertion sort, the model of `Array.prototype.sort` with a
comparator (the source only observes sortedness and permutation). -/
def sortLe (le : α → α → Bool) : List α → List α
  | [] => []
  | x :: xs => insertLe le x (sortLe le xs)

/-- Code-unit lexicographic comparison of character lists. -/
def strDataLe : List Char → List Char → Bool
  | [], _ => true
  | _ :: _, [] => false
  | a :: as, b :: bs =>
    if a < b then true
    else if b < a then false
    else strDataLe as bs

/-- The default string comparison of `Array.prototype.sort`. -/
def strLe (a b : String) : Bool := strDataLe a.data b.data

/-- Comparator `(a, b) => a - b` of the numeric sort, as a `le` relation:
`a` may stay before `b` unless `a - b > 0`.  (For `NaN` differences the
JavaScript order is implementation-defined; this model keeps input order,
and no stated property observes that case.) -/
def jsortLe (a b : JNum) : Bool := !(JNum.jlt (JNum.fin (Frac.ofInt 0)) (a.jsub b))

/-- Output of the numeric statistics engine (`percentiles` is the fixed
`{10: …, 90: …}` record, kept as the pair of its two entries). -/
structure NumericStats where
  min : JNum
  max : JNum
  mean : JNum
  median : JNum
  quartiles : JNum × JNum × JNum
  stddev : JNum
  p10 : JNum
  p90 : JNum
deriving DecidableEq

structure CategoricalStats where
  unique : Nat
  top10 : List (String × Nat)
  hhi : Frac
deriving DecidableEq

structure ColStat where
  present : Nat
  missing : Nat
  types : List String
  numericStats : Option NumericStats
  categoricalStats : Option CategoricalStats
deriving DecidableEq

structure KeysDeps where
  candidatePrimaryKeys : List (List String)
  functionalDependencies : List (List String × String)
deriving DecidableEq

structure MissPatterns where
  perColumnRates : List (String × Frac)
  topCoMissingPairs : List ((String × String) × Nat)
deriving DecidableEq

structure OutlierCounts where
  tukeyCount : Nat
  zscoreCount : Nat
deriving DecidableEq

structure EntropyStats where
  entropy : Frac
  tailShareOutsideTop10 : Frac
deriving DecidableEq

structure ProfileOptions where
  associationMatrix : Bool
  keysDependencies : Bool
  missingnessPatterns : Bool
  outliers : Bool
  categoricalEntropy : Bool
deriving DecidableEq

/-- The association matrix, modelled by its set of filled cells (the source
also materializes an empty row object per column, which carries no cell
information). -/
structure ProfileSummary where
  rowCount : Nat
  columns : List String
  columnStats : List (String × ColStat)
  associationMatrix : Option (List (String × String × JNum))
  keysAndDependencies : Option KeysDeps
  missingnessPatterns : Option MissPatterns
  outliers : Option (List (String × OutlierCounts))
  categoricalEntropy : Option (List (String × EntropyStats))
  sampleRows : List (List (String × JSValue))
deriving DecidableEq

/-- Linear interpolation percentile over an already sorted list. -/
def percentile (sorted : List JNum) (p : Frac) : JNum :=
  if sorted.length = 0 then JNum.nan
  else if p.ble (Frac.ofInt 0) then sorted.getD 0 JNum.nan
  else if (Frac.ofInt 100).ble p then sorted.getD (sorted.length - 1) JNum.nan
  else
    let index : Frac := (p.div (Frac.ofInt 100)).mul ((Frac.ofInt sorted.length).sub (Frac.ofInt 1))
    let lower : Nat := index.floor.toNat
    let upper : Nat := lower + 1
    let weight : Frac := index.sub (Frac.ofInt index.floor)
    if sorted.length ≤ upper then sorted.getD lower JNum.nan
    else JNum.jadd (JNum.jmul (sorted.getD lower JNum.nan) (JNum.fin ((Frac.ofInt 1).sub weight)))
                   (JNum.jmul (sorted.getD upper JNum.nan) (JNum.fin weight))

def computeNumericStats (nums : List JNum) : Option NumericStats :=
  if nums.length = 0 then none else
  let minv := nums.foldl JNum.jmin JNum.inf
  let maxv := nums.foldl JNum.jmax JNum.ninf
  let sum := nums.foldl JNum.jadd (JNum.fin (Frac.ofInt 0))
  let mean := JNum.jdiv sum (JNum.fin (Frac.ofInt nums.length))
  let sorted := sortLe jsortLe nums
  let median := percentile sorted (Frac.ofInt 50)
  let q1 := percentile sorted (Frac.ofInt 25)
  let q3 := percentile sorted (Frac.ofInt 75)
  let variance := if 1 < nums.length then
      JNum.jdiv (nums.foldl (fun a x => JNum.jadd a (JNum.jmul (x.jsub mean) (x.jsub mean)))
                  (JNum.fin (Frac.ofInt 0)))
                (JNum.fin ((Frac.ofInt nums.length).sub (Frac.ofInt 1)))
    else JNum.fin (Frac.ofInt 0)
  some ⟨minv, maxv, mean, median, (q1, median, q3), variance.jsqrt,
        percentile sorted (Frac.ofInt 10), percentile sorted (Frac.ofInt 90)⟩

/-- `freq.set(v, (freq.get(v) || 0) + 1)` on an insertion-ordered map. -/
def bumpCount : List (String × Nat) → String → List (String × Nat)
  | [], v => [(v, 1)]
  | (k, c) :: rest, v =>
    if k == v then (k, c + 1) :: rest else (k, c) :: bumpCount rest v

def computeCategoricalStats (cats : List String) : Option CategoricalStats :=
  if cats.length = 0 then none else
  let freq := cats.foldl bumpCount []
  let top10 := (sortLe (fun a b => decide (b.2 ≤ a.2)) freq).take 10
  let hhi := freq.foldl (fun acc e =>
      let share := (Frac.ofInt e.2).div (Frac.ofInt cats.length)
      acc.add ((share.mul (Frac.ofInt 100)).mul (share.mul (Frac.ofInt 100))))
    (Frac.ofInt 0)
  some ⟨freq.length, top10, hhi⟩

def getType (stat : ColStat) : String :=
  if stat.numericStats.isSome then "numeric"
  else if stat.categoricalStats.isSome then "categorical"
  else "other"

/-- The `paired` array of `pearsonFromData`: the rows in which both columns
hold a value of runtime kind number. -/
def pearsonPaired (data : List (List (String × JSValue))) (c1 c2 : String) :
    List (JNum × JNum) :=
  data.foldl (fun acc row =>
    match rowGet row c1, rowGet row c2 with
    | .num x, .num y => acc ++ [(x, y)]
    | _, _ => acc) []

def pearsonFromData (data : List (List (String × JSValue))) (c1 c2 : String) : JNum :=
  let paired := pearsonPaired data c1 c2
  if paired.length < 2 then JNum.nan else
  let nF := Frac.ofInt paired.length
  let mx := JNum.jdiv (paired.foldl (fun a p => a.jadd p.1) (JNum.fin (Frac.ofInt 0))) (JNum.fin nF)
  let my := JNum.jdiv (paired.foldl (fun a p => a.jadd p.2) (JNum.fin (Frac.ofInt 0))) (JNum.fin nF)
  let sums := paired.foldl (fun (t : JNum × JNum × JNum) p =>
      let dx := p.1.jsub mx
      let dy := p.2.jsub my
      (t.1.jadd (dx.jmul dy), t.2.1.jadd (dx.jmul dx), t.2.2.jadd (dy.jmul dy)))
    (JNum.fin (Frac.ofInt 0), JNum.fin (Frac.ofInt 0), JNum.fin (Frac.ofInt 0))
  let nm1 := JNum.fin (nF.sub (Frac.ofInt 1))
  let cov := JNum.jdiv sums.1 nm1
  let stdx := JNum.jsqrt (JNum.jdiv sums.2.1 nm1)
  let stdy := JNum.jsqrt (JNum.jdiv sums.2.2 nm1)
  if stdx.jbeq (JNum.fin (Frac.ofInt 0)) || stdy.jbeq (JNum.fin (Frac.ofInt 0)) then JNum.nan
  else JNum.jdiv cov (stdx.jmul stdy)

/-- Append a numeric observation to its (stringified) category group,
creating the group at the end on first sight — the `groups` map of
`etaSquaredFromData`. -/
def groupAppend : List (String × List JNum) → String → JNum → List (String × List JNum)
  | [], k, x => [(k, [x])]
  | (k0, xs) :: rest, k, x =>
    if k0 == k then (k0, xs ++ [x]) :: rest else (k0, xs) :: groupAppend rest k x

def etaGroups (data : List (List (String × JSValue))) (numCol catCol : String) :
    List (String × List JNum) × List JNum :=
  data.foldl (fun st row =>
    match rowGet row numCol with
    | .num x =>
      let cat := rowGet row catCol
      if isPresent cat then (groupAppend st.1 (jsToString cat) x, st.2 ++ [x]) else st
    | _ => st) ([], [])

def etaSquaredFromData (data : List (List (String × JSValue))) (numCol catCol : String) : JNum :=
  let st := etaGroups data numCol catCol
  let groups := st.1
  let allNums := st.2
  if allNums.length < 2 || groups.length < 2 then JNum.nan else
  let grandMean := JNum.jdiv (allNums.foldl JNum.jadd (JNum.fin (Frac.ofInt 0)))
                     (JNum.fin (Frac.ofInt allNums.length))
  let ssBetween := groups.foldl (fun acc g =>
      let groupMean := JNum.jdiv (g.2.foldl JNum.jadd (JNum.fin (Frac.ofInt 0)))
                         (JNum.fin (Frac.ofInt g.2.length))
      acc.jadd ((JNum.fin (Frac.ofInt g.2.length)).jmul
        ((groupMean.jsub grandMean).jmul (groupMean.jsub grandMean))))
    (JNum.fin (Frac.ofInt 0))
  let ssTotal := allNums.foldl (fun a x => a.jadd ((x.jsub grandMean).jmul (x.jsub grandMean)))
    (JNum.fin (Frac.ofInt 0))
  if ssTotal.jbeq (JNum.fin (Frac.ofInt 0)) then JNum.nan
  else JNum.jdiv ssBetween ssTotal

/-- Add one co-occurrence to the nested contingency map. -/
def contAdd : List (String × List (String × Nat)) → String → String →
    List (String × List (String × Nat))
  | [], k1, k2 => [(k1, [(k2, 1)])]
  | (k, m) :: rest, k1, k2 =>
    if k == k1 then (k, bumpCount m k2) :: rest else (k, m) :: contAdd rest k1 k2

def contingencyOf (data : List (List (String × JSValue))) (cat1 cat2 : String) :
    List (String × List (String × Nat)) × Nat :=
  data.foldl (fun st row =>
    let v1 := rowGet row cat1
    let v2 := rowGet row cat2
    if isPresent v1 && isPresent v2 then
      (contAdd st.1 (jsToString v1) (jsToString v2), st.2 + 1)
    else st) ([], 0)

def countGet (m : List (String × Nat)) (k : String) : Nat :=
  ((m.find? (fun e => e.1 == k)).map (fun e => e.2)).getD 0

def innerMapGet (t : List (String × List (String × Nat))) (r : String) : List (String × Nat) :=
  ((t.find? (fun e => e.1 == r)).map (fun e => e.2)).getD []

def natGet (m : List (String × Nat)) (k : String) : Nat :=
  ((m.find? (fun e => e.1 == k)).map (fun e => e.2)).getD 0

def cramersVFromData (data : List (List (String × JSValue))) (cat1 cat2 : String) : JNum :=
  let st := contingencyOf data cat1 cat2
  let contingency := st.1
  let n := st.2
  if n < 2 then JNum.nan else
  let rows := contingency.map (fun e => e.1)
  let cols := dedupFirstBy (fun a b => a == b) (contingency.flatMap (fun e => e.2.map (fun c => c.1)))
  let rowTotals := contingency.map (fun e => (e.1, e.2.foldl (fun t c => t + c.2) 0))
  let colTotals := cols.map (fun c => (c, contingency.foldl (fun t e => t + countGet e.2 c) 0))
  let chi2 := rows.foldl (fun acc r =>
      cols.foldl (fun acc c =>
        let o := Frac.ofInt (countGet (innerMapGet contingency r) c)
        let e := ((Frac.ofInt (natGet rowTotals r)).mul (Frac.ofInt (natGet colTotals c))).div
                   (Frac.ofInt n)
        if (Frac.ofInt 0).blt e then acc.add (((o.sub e).mul (o.sub e)).div e) else acc) acc)
    (Frac.ofInt 0)
  let minDim : Int := min ((rows.length : Int) - 1) ((cols.length : Int) - 1)
  if minDim ≤ 0 then JNum.nan
  else JNum.jsqrt (JNum.jdiv (JNum.fin chi2) (JNum.fin ((Frac.ofInt n).mul (Frac.ofInt minDim))))

/-- All index-ordered pairs `(columns[i], columns[j])` with `i < j`, the
iteration pattern of the pairwise loops. -/
def pairsOf : List α → List (α × α)
  | [] => []
  | x :: xs => xs.map (fun y => (x, y)) ++ pairsOf xs

def defaultColStat : ColStat := ⟨0, 0, [], none, none⟩

def statLookup (stats : List (String × ColStat)) (c : String) : ColStat :=
  ((stats.find? (fun e => e.1 == c)).map (fun e => e.2)).getD defaultColStat

/-- The per-pair dispatch of the association estimator (the loop body, with
`NaN` as the undefined default). -/
def pairStat (stats : List (String × ColStat)) (data : List (List (String × JSValue)))
    (c1 c2 : String) : JNum :=
  let t1 := getType (statLookup stats c1)
  let t2 := getType (statLookup stats c2)
  if t1 == "numeric" && t2 == "numeric" then pearsonFromData data c1 c2
  else if t1 == "categorical" && t2 == "categorical" then cramersVFromData data c1 c2
  else if t1 == "numeric" && t2 == "categorical" then etaSquaredFromData data c1 c2
  else if t1 == "categorical" && t2 == "numeric" then etaSquaredFromData data c2 c1
  else JNum.nan

def computeAssociationMatrix (columns : List String) (columnStats : List (String × ColStat))
    (data : List (List (String × JSValue))) : List (String × String × JNum) :=
  if 50 < columns.length then [] else
  (pairsOf columns).flatMap (fun p =>
    let value := pairStat columnStats data p.1 p.2
    if value.isNaN then [] else [(p.1, p.2, value), (p.2, p.1, value)])

/-- Cell lookup `matrix[a][b]` on the filled-cell representation. -/
def assocLookup (m : List (String × String × JNum)) (a b : String) : Option JNum :=
  (m.find? (fun e => e.1 == a && e.2.1 == b)).map (fun e => e.2.2)

/-- The per-column filtered non-missing value list (`colValues`), shared by
the scanner, the key detector and the outlier detector. -/
def colValues (data : List (List (String × JSValue))) (col : String) : List JSValue :=
  (data.map (fun row => rowGet row col)).filter isPresent

/-- Unchecked `as number[]` cast of the source; at every reachable call site
the list holds only numbers, so the default branch is never taken. -/
def asNumbers (l : List JSValue) : List JNum :=
  l.map (fun v => match v with | .num j => j | _ => JNum.nan)

def kdUniqueCols (columns : List String) (data : List (List (String × JSValue)))
    (rowCount : Nat) : List String :=
  columns.filter (fun col =>
    let nonMissing := colValues data col
    nonMissing.length == rowCount &&
      (dedupFirstBy sameValueZero nonMissing).length == rowCount)

/-- `Set.add` of a dependent value into its determinant group. -/
def setAdd : List (String × List String) → String → String → List (String × List String)
  | [], _, _ => []
  | (k, s) :: rest, key, v =>
    if k == key then (k, if s.any (fun x => x == v) then s else s ++ [v]) :: rest
    else (k, s) :: setAdd rest key v

/-- One row's contribution to the determinant-to-dependent value-set map of
the functional dependency loop. -/
def fdStep (a b : String) (groups : List (String × List String))
    (row : List (String × JSValue)) : List (String × List String) :=
  let va := rowGet row a
  if isPresent va then
    let key := fdKey va
    let groups := if groups.any (fun e => e.1 == key) then groups else groups ++ [(key, [])]
    let vb := rowGet row b
    if isPresent vb then setAdd groups key (fdKey vb) else groups
  else groups

/-- The determinant-to-dependent value-set map built by the functional
dependency loop for the ordered column pair `(a, b)`. -/
def fdGroups (data : List (List (String × JSValue))) (a b : String) :
    List (String × List String) :=
  data.foldl (fdStep a b) []

def computeKeysAndDeps (columns : List String) (data : List (List (String × JSValue)))
    (rowCount : Nat) : KeysDeps :=
  if 20 < columns.length then ⟨[], []⟩ else
  let uniqueCols := kdUniqueCols columns data rowCount
  let candidatePrimaryKeys := uniqueCols.map (fun c => [c])
  let functionalDependencies := columns.enum.flatMap (fun ia =>
    if (colValues data ia.2).length < 2 then [] else
    columns.enum.flatMap (fun jb =>
      if ia.1 == jb.1 then [] else
      if uniqueCols.any (fun u => u == ia.2) then [] else
      let groups := fdGroups data ia.2 jb.2
      if groups.all (fun g => decide (g.2.length ≤ 1)) && decide (1 < groups.length)
      then [([ia.2], jb.2)] else []))
  ⟨candidatePrimaryKeys, functionalDependencies⟩

/-- A row misses a column when the key is absent or its value is
`undefined`/`null`. -/
def isMissingAt (row : List (String × JSValue)) (c : String) : Bool :=
  !(isPresent (rowGet row c))

def computeMissingPatterns (columns : List String) (data : List (List (String × JSValue)))
    (rowCount : Nat) : MissPatterns :=
  let perColumnRates := columns.map (fun c =>
    let missing := rowCount - (data.filter (fun row => isPresent (rowGet row c))).length
    (c, (Frac.ofInt missing).div (Frac.ofInt rowCount)))
  let topCoMissingPairs :=
    if columns.length ≤ 50 then
      let pairCounts := (pairsOf columns).filterMap (fun p =>
        let count := (data.filter (fun row => isMissingAt row p.1 && isMissingAt row p.2)).length
        if 0 < count then some (p, count) else none)
      (sortLe (fun a b => decide (b.2 ≤ a.2)) pairCounts).take 10
    else []
  ⟨perColumnRates, topCoMissingPairs⟩

def computeCatEntropy (columns : List String) (columnStats : List (String × ColStat))
    (data : List (List (String × JSValue))) : List (String × EntropyStats) :=
  columns.filterMap (fun col =>
    match (statLookup columnStats col).categoricalStats with
    | none => none
    | some catStat =>
      let cats := ((data.map (fun row => rowGet row col)).filter isPresent).map jsToString
      let freq := cats.foldl bumpCount []
      let total := cats.length
      let entropy := freq.foldl (fun acc e =>
          let p := (Frac.ofInt e.2).div (Frac.ofInt total)
          acc.sub (p.mul p.qlog2)) (Frac.ofInt 0)
      let top10Values := catStat.top10.map (fun t => t.1)
      let tailCount := freq.foldl (fun (t : Nat) e =>
          if top10Values.any (fun v => v == e.1) then t else t + e.2) 0
      some (col, ⟨entropy, (Frac.ofInt tailCount).div (Frac.ofInt total)⟩))

/-- The per-column body of the outlier detector: `undefined` when the column
has no NumericStats, else the Tukey-fence and z-score counts in one pass. -/
def outlierEntry (columnStats : List (String × ColStat))
    (data : List (List (String × JSValue))) (col : String) : Option OutlierCounts :=
  match (statLookup columnStats col).numericStats with
  | none => none
  | some stat =>
    let nums := asNumbers (colValues data col)
    let iqr := stat.quartiles.2.2.jsub stat.quartiles.1
    let lowerFence := stat.quartiles.1.jsub ((JNum.fin (Frac.ofPair 3 2)).jmul iqr)
    let upperFence := stat.quartiles.2.2.jadd ((JNum.fin (Frac.ofPair 3 2)).jmul iqr)
    let counts := nums.foldl (fun (t : Nat × Nat) x =>
        (if x.jlt lowerFence || upperFence.jlt x then t.1 + 1 else t.1,
         if (JNum.fin (Frac.ofInt 0)).jlt stat.stddev &&
            (JNum.fin (Frac.ofInt 3)).jlt (((x.jsub stat.mean).jdiv stat.stddev).jabs)
         then t.2 + 1 else t.2)) (0, 0)
    some ⟨counts.1, counts.2⟩

def computeOutliers (columns : List String) (columnStats : List (String × ColStat))
    (data : List (List (String × JSValue))) : List (String × OutlierCounts) :=
  columns.filterMap (fun col => (outlierEntry columnStats data col).map (fun c => (col, c)))

/-- The per-column scanner: presence counts, distinct kinds, and the two
optional statistics blocks. -/
def mkColStat (data : List (List (String × JSValue))) (col : String) : ColStat :=
  let values := data.map (fun row => rowGet row col)
  let nonMissing := values.filter isPresent
  let present := nonMissing.length
  let missing := data.length - present
  let types := dedupFirstBy (fun a b => a == b) (nonMissing.map typeOf)
  let numericStats :=
    if types.length == 1 && types.getD 0 "" == "number" && decide (0 < nonMissing.length)
    then computeNumericStats (asNumbers nonMissing) else none
  let categoricalStats :=
    if types.length == 1 && (types.getD 0 "" == "string" || types.getD 0 "" == "boolean") &&
       decide (0 < nonMissing.length)
    then computeCategoricalStats (nonMissing.map jsToString) else none
  ⟨present, missing, types, numericStats, categoricalStats⟩

/-- The key set `allKeys` of the profiler (a `Set` filled row by row, in
insertion order). -/
def allKeysOf (data : List (List (String × JSValue))) : List String :=
  dedupFirstBy (fun a b => a == b) (data.flatMap (fun row => row.map (fun e => e.1)))

/-- `columns`: the sorted deduplicated key list. -/
def columnsOf (data : List (List (String × JSValue))) : List String :=
  sortLe strLe (allKeysOf data)

/-- `columnStats`: one scanner result per column. -/
def columnStatsOf (data : List (List (String × JSValue))) : List (String × ColStat) :=
  (columnsOf data).map (fun col => (col, mkColStat data col))

/-- `sampleRows`: the first `min 5 rowCount` rows re-projected onto the full
column set, filling absent/undefined values with `null`. -/
def sampleRowsOf (data : List (List (String × JSValue))) : List (List (String × JSValue)) :=
  (data.take (min 5 data.length)).map (fun row =>
    (columnsOf data).map (fun col =>
      (col, if rowHas row col && !(isUndef (rowGet row col)) then rowGet row col else JSValue.null)))

/-- The profiler entry point. -/
def profile (data : List (List (String × JSValue))) (options : ProfileOptions) :
    ProfileSummary :=
  if data.length = 0 then ⟨0, [], [], none, none, none, none, none, []⟩ else
  let rowCount := data.length
  let columns := columnsOf data
  let columnStats := columnStatsOf data
  ⟨rowCount, columns, columnStats,
   if options.associationMatrix then some (computeAssociationMatrix columns columnStats data) else none,
   if options.keysDependencies then some (computeKeysAndDeps columns data rowCount) else none,
   if options.missingnessPatterns then some (computeMissingPatterns columns data rowCount) else none,
   if options.outliers then some (computeOutliers columns columnStats data) else none,
   if options.categoricalEntropy then some (computeCatEntropy columns columnStats data) else none,
   sampleRowsOf data⟩

/-! ## Arithmetic transfer lemmas: `Frac` against its rational value -/

theorem Frac.dq_pos (a : Frac) : (0 : ℚ) < (a.d : ℚ) := by exact_mod_cast a.hd

theorem Frac.dq_ne (a : Frac) : (a.d : ℚ) ≠ 0 := ne_of_gt a.dq_pos

@[simp] theorem Frac.val_ofInt (k : Int) : (Frac.ofInt k).val = (k : ℚ) := by
  simp [Frac.ofInt, Frac.val]

@[simp] theorem Frac.val_add (a b : Frac) : (a.add b).val = a.val + b.val := by
  simp only [Frac.add, Frac.val]
  rw [div_add_div _ _ a.dq_ne b.dq_ne]
  push_cast
  ring_nf

@[simp] theorem Frac.val_neg (a : Frac) : a.neg.val = -a.val := by
  simp [Frac.neg, Frac.val, neg_div]

@[simp] theorem Frac.val_sub (a b : Frac) : (a.sub b).val = a.val - b.val := by
  simp [Frac.sub, sub_eq_add_neg]

@[simp] theorem Frac.val_mul (a b : Frac) : (a.mul b).val = a.val * b.val := by
  simp only [Frac.mul, Frac.val]
  push_cast
  rw [div_mul_div_comm]

theorem Frac.val_div (a b : Frac) (h : b.n ≠ 0) : (a.div b).val = a.val / b.val := by
  have hbn : ((b.n : ℚ)) ≠ 0 := by exact_mod_cast h
  have had := a.dq_ne
  have hbd := b.dq_ne
  rcases lt_trichotomy 0 b.n with hpos | hzero | hneg
  · simp only [Frac.div, dif_pos hpos, Frac.val]
    push_cast
    field_simp
  · exact absurd hzero.symm h
  · have hnp : ¬ 0 < b.n := by omega
    simp only [Frac.div, dif_neg hnp, dif_pos hneg, Frac.val]
    push_cast
    field_simp

theorem Frac.ble_iff (a b : Frac) : a.ble b = true ↔ a.val ≤ b.val := by
  rw [Frac.ble, decide_eq_true_iff, Frac.val, Frac.val,
    div_le_div_iff₀ a.dq_pos b.dq_pos]
  exact_mod_cast Iff.rfl

theorem Frac.blt_iff (a b : Frac) : a.blt b = true ↔ a.val < b.val := by
  rw [Frac.blt, decide_eq_true_iff, Frac.val, Frac.val,
    div_lt_div_iff₀ a.dq_pos b.dq_pos]
  exact_mod_cast Iff.rfl

theorem Frac.beq_iff (a b : Frac) : a.beq b = true ↔ a.val = b.val := by
  rw [Frac.beq, decide_eq_true_iff, Frac.val, Frac.val,
    div_eq_div_iff a.dq_ne b.dq_ne]
  exact_mod_cast Iff.rfl

theorem Frac.val_eq_zero_iff (a : Frac) : a.val = 0 ↔ a.n = 0 := by
  rw [Frac.val, div_eq_zero_iff]
  simp [a.dq_ne, Int.cast_eq_zero]

theorem Frac.val_nonneg_iff (a : Frac) : 0 ≤ a.val ↔ 0 ≤ a.n := by
  rw [Frac.val, le_div_iff₀ a.dq_pos, zero_mul]
  exact_mod_cast Iff.rfl

theorem Frac.val_neg_iff (a : Frac) : a.val < 0 ↔ a.n < 0 := by
  rw [Frac.val, div_lt_iff₀ a.dq_pos, zero_mul]
  exact_mod_cast Iff.rfl

theorem Frac.floor_eq (a : Frac) : a.floor = ⌊a.val⌋ := by
  rw [Frac.floor, Frac.val]
  have hd : a.d = ((a.d.toNat : ℕ) : ℤ) := (Int.toNat_of_nonneg (le_of_lt a.hd)).symm
  rw [Int.fdiv_eq_ediv _ (le_of_lt a.hd)]
  rw [show ((a.d : ℚ)) = ((a.d.toNat : ℕ) : ℚ) by exact_mod_cast congrArg Int.cast hd]
  rw [Rat.floor_intCast_div_natCast]
  rw [← hd]

@[simp] theorem Frac.val_qsqrt (a : Frac) : a.qsqrt.val = a.val := rfl

/-! ## `JNum` reduction lemmas -/

@[simp] theorem JNum.jadd_fin (a b : Frac) :
    (JNum.fin a).jadd (JNum.fin b) = JNum.fin (a.add b) := rfl

@[simp] theorem JNum.jneg_fin (a : Frac) : (JNum.fin a).jneg = JNum.fin a.neg := rfl

@[simp] theorem JNum.jsub_fin (a b : Frac) :
    (JNum.fin a).jsub (JNum.fin b) = JNum.fin (a.add b.neg) := rfl

@[simp] theorem JNum.jmul_fin (a b : Frac) :
    (JNum.fin a).jmul (JNum.fin b) = JNum.fin (a.mul b) := rfl

theorem JNum.jdiv_fin (a b : Frac) (h : b.n ≠ 0) :
    (JNum.fin a).jdiv (JNum.fin b) = JNum.fin (a.div b) := by
  simp [JNum.jdiv, h]

theorem JNum.jsqrt_fin (a : Frac) (h : ¬ a.n < 0) :
    (JNum.fin a).jsqrt = JNum.fin a.qsqrt := by
  simp [JNum.jsqrt, h]

@[simp] theorem JNum.jbeq_fin (a b : Frac) :
    (JNum.fin a).jbeq (JNum.fin b) = a.beq b := rfl

@[simp] theorem JNum.jlt_fin (a b : Frac) :
    (JNum.fin a).jlt (JNum.fin b) = a.blt b := rfl

@[simp] theorem JNum.isNaN_fin (a : Frac) : (JNum.fin a).isNaN = false := rfl

/-! ## The sort comparator agrees with the lexicographic string order -/

theorem strDataLe_iff (xs ys : List Char) : strDataLe xs ys = true ↔ ¬ List.lt ys xs := by
  induction xs generalizing ys with
  | nil =>
    cases ys with
    | nil => simp [strDataLe]; nofun
    | cons y ys => simp [strDataLe]; nofun
  | cons x xs ih =>
    cases ys with
    | nil =>
      simp only [strDataLe, Bool.false_eq_true, false_iff, not_not]
      exact List.lt.nil x xs
    | cons y ys =>
      by_cases hlt : x < y
      · simp only [strDataLe, if_pos hlt, true_iff]
        intro h
        cases h with
        | head _ _ h => exact absurd hlt (lt_asymm h)
        | tail h1 h2 _ => exact h2 hlt
      · by_cases hgt : y < x
        · simp only [strDataLe, if_neg hlt, if_pos hgt, Bool.false_eq_true, false_iff, not_not]
          exact List.lt.head _ _ hgt
        · have hxy : x = y := le_antisymm (not_lt.mp hgt) (not_lt.mp hlt)
          subst hxy
          simp only [strDataLe, if_neg hlt, ih]
          constructor
          · intro h hcon
            cases hcon with
            | head _ _ h2 => exact hlt h2
            | tail _ _ h3 => exact h h3
          · intro h hcon
            exact h (List.lt.tail hlt hlt hcon)

theorem strLe_iff (a b : String) : strLe a b = true ↔ a ≤ b := by
  rw [strLe, strDataLe_iff, String.le_iff_toList_le, List.lt_iff_lex_lt]
  constructor
  · intro h
    exact not_lt.mp h
  · intro h
    exact not_lt.mpr h

theorem strLe_total (a b : String) : strLe a b || strLe b a := by
  rcases le_total a b with h | h
  · simp [(strLe_iff a b).mpr h]
  · simp [(strLe_iff b a).mpr h]

theorem strLe_trans (a b c : String) (h1 : strLe a b = true) (h2 : strLe b c = true) :
    strLe a c = true :=
  (strLe_iff a c).mpr (le_trans ((strLe_iff a b).mp h1) ((strLe_iff b c).mp h2))

/-! ## Sort model: permutation, membership and sortedness -/

theorem perm_insertLe (le : α → α → Bool) (x : α) (l : List α) :
    (insertLe le x l).Perm (x :: l) := by
  induction l with
  | nil => simp [insertLe]
  | cons y ys ih =>
    by_cases h : le x y
    · simp [insertLe, h]
    · simp only [insertLe, if_neg h]
      exact ((ih.cons y).trans (List.Perm.swap x y ys))

theorem perm_sortLe (le : α → α → Bool) (l : List α) : (sortLe le l).Perm l := by
  induction l with
  | nil => simp [sortLe]
  | cons x xs ih => exact (perm_insertLe le x (sortLe le xs)).trans (ih.cons x)

theorem mem_sortLe (le : α → α → Bool) (l : List α) (a : α) :
    a ∈ sortLe le l ↔ a ∈ l :=
  (perm_sortLe le l).mem_iff

theorem length_sortLe (le : α → α → Bool) (l : List α) :
    (sortLe le l).length = l.length :=
  (perm_sortLe le l).length_eq

theorem nodup_sortLe (le : α → α → Bool) (l : List α) :
    (sortLe le l).Nodup ↔ l.Nodup :=
  (perm_sortLe le l).nodup_iff

theorem pairwise_insertLe (le : α → α → Bool)
    (htrans : ∀ a b c, le a b = true → le b c = true → le a c = true)
    (htotal : ∀ a b, le a b || le b a)
    (x : α) (l : List α) (hl : l.Pairwise (fun a b => le a b = true)) :
    (insertLe le x l).Pairwise (fun a b => le a b = true) := by
  induction l with
  | nil => simp [insertLe]
  | cons y ys ih =>
    rcases List.pairwise_cons.mp hl with ⟨hy, hys⟩
    by_cases h : le x y
    · simp only [insertLe, if_pos h]
      refine List.pairwise_cons.mpr ⟨?_, hl⟩
      intro b hb
      rcases List.mem_cons.mp hb with rfl | hb
      · exact h
      · exact htrans x y b h (hy b hb)
    · simp only [insertLe, if_neg h]
      refine List.pairwise_cons.mpr ⟨?_, ih hys⟩
      intro b hb
      have hxy : le y x = true := by
        rcases Bool.or_eq_true_iff.mp (htotal x y) with h1 | h1
        · exact absurd h1 h
        · exact h1
      have hmem := (perm_insertLe le x ys).mem_iff.mp hb
      rcases List.mem_cons.mp hmem with rfl | hb2
      · exact hxy
      · exact hy b hb2

theorem pairwise_sortLe (le : α → α → Bool)
    (htrans : ∀ a b c, le a b = true → le b c = true → le a c = true)
    (htotal : ∀ a b, le a b || le b a) (l : List α) :
    (sortLe le l).Pairwise (fun a b => le a b = true) := by
  induction l with
  | nil => simp [sortLe]
  | cons x xs ih => exact pairwise_insertLe le htrans htotal x (sortLe le xs) ih

/-! ## First-occurrence deduplication (JavaScript `Set`) -/

theorem mem_dedupFirstBy_aux [BEq α] [LawfulBEq α] (l acc : List α) (x : α) :
    x ∈ l.foldl (fun acc y => if acc.any (fun z => z == y) then acc else acc ++ [y]) acc ↔
      x ∈ acc ∨ x ∈ l := by
  induction l generalizing acc with
  | nil => simp
  | cons y ys ih =>
    simp only [List.foldl_cons]
    by_cases h : acc.any (fun z => z == y)
    · rw [if_pos h, ih]
      have hy : y ∈ acc := by
        rcases List.any_eq_true.mp h with ⟨z, hz, hzy⟩
        rwa [eq_of_beq hzy] at hz
      constructor
      · rintro (h1 | h1)
        · exact Or.inl h1
        · exact Or.inr (List.mem_cons_of_mem y h1)
      · rintro (h1 | h1)
        · exact Or.inl h1
        · rcases List.mem_cons.mp h1 with rfl | h2
          · exact Or.inl hy
          · exact Or.inr h2
    · rw [if_neg h, ih]
      simp only [List.mem_append, List.mem_singleton, List.mem_cons]
      tauto

theorem mem_dedupFirstBy [BEq α] [LawfulBEq α] (l : List α) (x : α) :
    x ∈ dedupFirstBy (fun a b => a == b) l ↔ x ∈ l := by
  rw [dedupFirstBy]
  rw [show (fun (acc : List α) x => if acc.any (fun y => (fun a b => a == b) y x) then acc
        else acc ++ [x]) = (fun acc y => if acc.any (fun z => z == y) then acc else acc ++ [y])
      from rfl]
  rw [mem_dedupFirstBy_aux]
  simp

theorem nodup_dedupFirstBy_aux [BEq α] [LawfulBEq α] (l acc : List α) (hacc : acc.Nodup) :
    (l.foldl (fun acc y => if acc.any (fun z => z == y) then acc else acc ++ [y]) acc).Nodup := by
  induction l generalizing acc with
  | nil => simpa
  | cons y ys ih =>
    simp only [List.foldl_cons]
    by_cases h : acc.any (fun z => z == y)
    · rw [if_pos h]; exact ih acc hacc
    · rw [if_neg h]
      refine ih (acc ++ [y]) ?_
      rw [List.nodup_append]
      refine ⟨hacc, List.nodup_singleton y, ?_⟩
      intro a ha hay
      rcases List.mem_singleton.mp hay with rfl
      exact h (List.any_eq_true.mpr ⟨a, ha, beq_self_eq_true a⟩)

theorem nodup_dedupFirstBy [BEq α] [LawfulBEq α] (l : List α) :
    (dedupFirstBy (fun a b => a == b) l).Nodup :=
  nodup_dedupFirstBy_aux l [] List.nodup_nil

/-! ## Lookup in a keyed map built over a column list -/

theorem find?_graph_of_mem (l : List String) (f : String → β) (c : String) (hc : c ∈ l) :
    ((l.map (fun x => (x, f x))).find? (fun e => e.1 == c)) = some (c, f c) := by
  induction l with
  | nil => cases hc
  | cons x xs ih =>
    simp only [List.map_cons, List.find?_cons]
    by_cases hx : x = c
    · subst hx
      simp
    · have : ((x, f x).1 == c) = false := by
        simp [hx]
      rw [this]
      rcases List.mem_cons.mp hc with rfl | h2
      · exact absurd rfl hx
      · exact ih h2

theorem find?_graph_eq_some (l : List String) (f : String → β) (c : String)
    (p : String × β) (hp : ((l.map (fun x => (x, f x))).find? (fun e => e.1 == c)) = some p) :
    p = (c, f c) ∧ c ∈ l := by
  induction l with
  | nil => simp at hp
  | cons x xs ih =>
    simp only [List.map_cons, List.find?_cons] at hp
    by_cases hx : x = c
    · subst hx
      simp only [beq_self_eq_true] at hp
      exact ⟨(Option.some_inj.mp hp).symm, List.mem_cons_self x xs⟩
    · have hb : ((x, f x).1 == c) = false := by simp [hx]
      rw [hb] at hp
      rcases ih hp with ⟨h1, h2⟩
      exact ⟨h1, List.mem_cons_of_mem x h2⟩

theorem statLookup_graph (l : List String) (f : String → ColStat) (c : String) (hc : c ∈ l) :
    statLookup (l.map (fun x => (x, f x))) c = f c := by
  rw [statLookup, find?_graph_of_mem l f c hc]
  rfl

theorem statLookup_columnStatsOf (data : List (List (String × JSValue))) (c : String)
    (hc : c ∈ columnsOf data) :
    statLookup (columnStatsOf data) c = mkColStat data c :=
  statLookup_graph (columnsOf data) (fun col => mkColStat data col) c hc

/-! ## Facts about the column list -/

theorem columnsOf_sorted (data : List (List (String × JSValue))) :
    List.Sorted (· ≤ ·) (columnsOf data) := by
  have h := pairwise_sortLe strLe strLe_trans strLe_total (allKeysOf data)
  exact h.imp (fun hab => (strLe_iff _ _).mp hab)

theorem columnsOf_nodup (data : List (List (String × JSValue))) :
    (columnsOf data).Nodup :=
  (nodup_sortLe strLe (allKeysOf data)).mpr (nodup_dedupFirstBy _)

theorem mem_columnsOf (data : List (List (String × JSValue))) (c : String) :
    c ∈ columnsOf data ↔ ∃ row ∈ data, c ∈ row.map (fun e => e.1) := by
  rw [columnsOf, mem_sortLe, allKeysOf, mem_dedupFirstBy, List.mem_flatMap]

theorem columnsOf_sorted_lt (data : List (List (String × JSValue))) :
    (columnsOf data).Pairwise (· < ·) := by
  have h := (columnsOf_sorted data).and (columnsOf_nodup data)
  exact h.imp (fun hab => lt_of_le_of_ne hab.1 hab.2)

/-! ## Field equations of `profile` on a nonempty table -/

theorem profile_rowCount (data : List (List (String × JSValue))) (opts : ProfileOptions)
    (h : data ≠ []) : (profile data opts).rowCount = data.length := by
  cases data with
  | nil => exact absurd rfl h
  | cons r rows => simp [profile]

theorem profile_columns (data : List (List (String × JSValue))) (opts : ProfileOptions)
    (h : data ≠ []) : (profile data opts).columns = columnsOf data := by
  cases data with
  | nil => exact absurd rfl h
  | cons r rows => simp [profile]

theorem profile_columnStats (data : List (List (String × JSValue))) (opts : ProfileOptions)
    (h : data ≠ []) : (profile data opts).columnStats = columnStatsOf data := by
  cases data with
  | nil => exact absurd rfl h
  | cons r rows => simp [profile]

theorem profile_sampleRows (data : List (List (String × JSValue))) (opts : ProfileOptions)
    (h : data ≠ []) : (profile data opts).sampleRows = sampleRowsOf data := by
  cases data with
  | nil => exact absurd rfl h
  | cons r rows => simp [profile]

theorem profile_assoc (data : List (List (String × JSValue))) (opts : ProfileOptions)
    (h : data ≠ []) :
    (profile data opts).associationMatrix =
      if opts.associationMatrix then
        some (computeAssociationMatrix (columnsOf data) (columnStatsOf data) data)
      else none := by
  cases data with
  | nil => exact absurd rfl h
  | cons r rows => simp [profile]

theorem profile_keysDeps (data : List (List (String × JSValue))) (opts : ProfileOptions)
    (h : data ≠ []) :
    (profile data opts).keysAndDependencies =
      if opts.keysDependencies then
        some (computeKeysAndDeps (columnsOf data) data data.length)
      else none := by
  cases data with
  | nil => exact absurd rfl h
  | cons r rows => simp [profile]

theorem profile_missing (data : List (List (String × JSValue))) (opts : ProfileOptions)
    (h : data ≠ []) :
    (profile data opts).missingnessPatterns =
      if opts.missingnessPatterns then
        some (computeMissingPatterns (columnsOf data) data data.length)
      else none := by
  cases data with
  | nil => exact absurd rfl h
  | cons r rows => simp [profile]

theorem profile_outliers (data : List (List (String × JSValue))) (opts : ProfileOptions)
    (h : data ≠ []) :
    (profile data opts).outliers =
      if opts.outliers then
        some (computeOutliers (columnsOf data) (columnStatsOf data) data)
      else none := by
  cases data with
  | nil => exact absurd rfl h
  | cons r rows => simp [profile]

/-! ## Sample-row helpers -/

theorem rowHas_of_rowGet_ne (row : List (String × JSValue)) (col : String)
    (h : rowGet row col ≠ JSValue.undef) : rowHas row col = true := by
  rw [rowHas]
  cases hf : row.find? (fun e => e.1 == col) with
  | none => exact absurd (by rw [rowGet, hf]) h
  | some e => rfl

theorem sampleFill_eq (row : List (String × JSValue)) (col : String) :
    (if rowHas row col && !(isUndef (rowGet row col)) then rowGet row col else JSValue.null) =
      (match rowGet row col with | JSValue.undef => JSValue.null | v => v) := by
  cases hv : rowGet row col with
  | undef => simp [isUndef]
  | null => simp [isUndef]
  | num j =>
    have hh := rowHas_of_rowGet_ne row col (by rw [hv]; exact fun hcon => JSValue.noConfusion hcon)
    simp [isUndef, hh]
  | str s =>
    have hh := rowHas_of_rowGet_ne row col (by rw [hv]; exact fun hcon => JSValue.noConfusion hcon)
    simp [isUndef, hh]
  | bool b =>
    have hh := rowHas_of_rowGet_ne row col (by rw [hv]; exact fun hcon => JSValue.noConfusion hcon)
    simp [isUndef, hh]
  | obj s =>
    have hh := rowHas_of_rowGet_ne row col (by rw [hv]; exact fun hcon => JSValue.noConfusion hcon)
    simp [isUndef, hh]

theorem rowGet_graph (l : List String) (g : String → JSValue) (c : String) (hc : c ∈ l) :
    rowGet (l.map (fun x => (x, g x))) c = g c := by
  rw [rowGet, find?_graph_of_mem l g c hc]

/-! ## Scanner component equations -/

theorem mkColStat_present (data : List (List (String × JSValue))) (col : String) :
    (mkColStat data col).present = (colValues data col).length := rfl

theorem mkColStat_missing (data : List (List (String × JSValue))) (col : String) :
    (mkColStat data col).missing = data.length - (colValues data col).length := rfl

theorem mkColStat_types (data : List (List (String × JSValue))) (col : String) :
    (mkColStat data col).types =
      dedupFirstBy (fun a b => a == b) ((colValues data col).map typeOf) := rfl

theorem mkColStat_numericStats (data : List (List (String × JSValue))) (col : String) :
    (mkColStat data col).numericStats =
      (if (mkColStat data col).types.length == 1 &&
          (mkColStat data col).types.getD 0 "" == "number" &&
          decide (0 < (colValues data col).length)
       then computeNumericStats (asNumbers (colValues data col)) else none) := rfl

theorem mkColStat_categoricalStats (data : List (List (String × JSValue))) (col : String) :
    (mkColStat data col).categoricalStats =
      (if (mkColStat data col).types.length == 1 &&
          ((mkColStat data col).types.getD 0 "" == "string" ||
           (mkColStat data col).types.getD 0 "" == "boolean") &&
          decide (0 < (colValues data col).length)
       then computeCategoricalStats ((colValues data col).map jsToString) else none) := rfl

theorem two_mem_ne_two_le_length (l : List α) (t₁ t₂ : α) (h1 : t₁ ∈ l) (h2 : t₂ ∈ l)
    (hne : t₁ ≠ t₂) : 2 ≤ l.length := by
  cases l with
  | nil => cases h1
  | cons a as =>
    cases as with
    | nil =>
      rw [List.mem_singleton] at h1 h2
      exact absurd (h1.trans h2.symm) hne
    | cons b bs => simp only [List.length_cons]; omega

/-! ## Claim theorems: output shape -/

/-- C10: on the empty table the profiler returns row count 0, an empty column
list, an empty per-column statistics record and an empty sample list, and
omits every optional output field regardless of the requested options. -/
theorem C10_empty_table_profile (opts : ProfileOptions) :
    profile [] opts = ⟨0, [], [], none, none, none, none, none, []⟩ := rfl

/-- C3: for every table the reported row count equals the number of input
records, and the column list is exactly the lexicographically sorted
deduplication of the keys appearing in any record: it is sorted, duplicate
free, and contains a name iff some record carries that key. -/
theorem C3_rowcount_and_columns (data : List (List (String × JSValue)))
    (opts : ProfileOptions) :
    (profile data opts).rowCount = data.length ∧
    List.Sorted (· ≤ ·) (profile data opts).columns ∧
    (profile data opts).columns.Nodup ∧
    (∀ c : String, c ∈ (profile data opts).columns ↔
      ∃ row ∈ data, c ∈ row.map (fun e => e.1)) := by
  cases data with
  | nil =>
    refine ⟨rfl, by simp [profile], by simp [profile], ?_⟩
    intro c
    simp [profile]
  | cons r rows =>
    have hne : (r :: rows) ≠ [] := by simp
    refine ⟨profile_rowCount _ opts hne, ?_, ?_, ?_⟩
    · rw [profile_columns _ opts hne]
      exact columnsOf_sorted _
    · rw [profile_columns _ opts hne]
      exact columnsOf_nodup _
    · intro c
      rw [profile_columns _ opts hne]
      exact mem_columnsOf _ c

/-- C9: the sample has `min 5 rowCount` rows; the `i`-th sample row is the
`i`-th input row re-projected onto the full sorted column set, every absent
or missing value filled as `null`. -/
theorem C9_sample_rows (data : List (List (String × JSValue))) (opts : ProfileOptions) :
    (profile data opts).sampleRows.length = min 5 data.length ∧
    (∀ (i : Nat) (row : List (String × JSValue)), (profile data opts).sampleRows[i]? = some row →
      row.map (fun e => e.1) = (profile data opts).columns ∧
      ∃ orig, data[i]? = some orig ∧
        ∀ c ∈ (profile data opts).columns,
          rowGet row c = (match rowGet orig c with | JSValue.undef => JSValue.null | v => v)) := by
  cases data with
  | nil =>
    refine ⟨rfl, ?_⟩
    intro i row h
    simp [profile] at h
  | cons r rows =>
    have hne : (r :: rows) ≠ [] := by simp
    constructor
    · rw [profile_sampleRows _ opts hne, sampleRowsOf, List.length_map, List.length_take]
      omega
    · intro i row h
      rw [profile_sampleRows _ opts hne, sampleRowsOf, List.getElem?_map] at h
      rcases Option.map_eq_some'.mp h with ⟨orig, horig, hrow⟩
      have hlt : i < ((r :: rows).take (min 5 (r :: rows).length)).length := by
        rcases List.getElem?_eq_some.mp horig with ⟨hl, _⟩
        exact hl
      have horig2 : (r :: rows)[i]? = some orig := by
        rw [List.getElem?_take] at horig
        by_cases hlt2 : i < 5 ⊓ (r :: rows).length
        · rwa [if_pos hlt2] at horig
        · rw [if_neg hlt2] at horig
          cases horig
      refine ⟨?_, orig, horig2, ?_⟩
      · rw [← hrow, profile_columns _ opts hne, List.map_map]
        show List.map (fun col => col) (columnsOf (r :: rows)) = columnsOf (r :: rows)
        simp
      · intro c hc
        rw [profile_columns _ opts hne] at hc
        rw [← hrow, rowGet_graph _ _ c hc, sampleFill_eq]

/-- C2: a per-column stats entry never carries both blocks; NumericStats
forces the kind list to be exactly `["number"]` with a present value;
CategoricalStats forces a nonempty kind list inside `{string, boolean}` with
a present value; and a column with two distinct kinds gets neither block. -/
theorem C2_stats_exclusivity (data : List (List (String × JSValue)))
    (opts : ProfileOptions) (col : String) (stat : ColStat)
    (h : (col, stat) ∈ (profile data opts).columnStats) :
    ¬(stat.numericStats.isSome = true ∧ stat.categoricalStats.isSome = true) ∧
    (stat.numericStats.isSome = true → stat.types = ["number"] ∧ 0 < stat.present) ∧
    (stat.categoricalStats.isSome = true →
      stat.types ≠ [] ∧ (∀ t ∈ stat.types, t = "string" ∨ t = "boolean") ∧ 0 < stat.present) ∧
    ((∃ t₁ ∈ stat.types, ∃ t₂ ∈ stat.types, t₁ ≠ t₂) →
      stat.numericStats = none ∧ stat.categoricalStats = none) := by
  have hstat : stat = mkColStat data col := by
    cases data with
    | nil => simp [profile] at h
    | cons r rows =>
      rw [profile_columnStats _ opts (by simp), columnStatsOf] at h
      rcases List.mem_map.mp h with ⟨c, _, hceq⟩
      have h1 : c = col := congrArg Prod.fst hceq
      subst h1
      exact (congrArg Prod.snd hceq).symm
  subst hstat
  constructor
  · rintro ⟨hn, hc⟩
    rw [mkColStat_numericStats] at hn
    rw [mkColStat_categoricalStats] at hc
    by_cases h1 : ((mkColStat data col).types.length == 1 &&
        (mkColStat data col).types.getD 0 "" == "number" &&
        decide (0 < (colValues data col).length)) = true
    · by_cases h2 : ((mkColStat data col).types.length == 1 &&
          ((mkColStat data col).types.getD 0 "" == "string" ||
           (mkColStat data col).types.getD 0 "" == "boolean") &&
          decide (0 < (colValues data col).length)) = true
      · simp only [Bool.and_eq_true, beq_iff_eq, Bool.or_eq_true] at h1 h2
        rcases h1.1.2 with hnum
        rcases h2.1.2 with hstr | hbool
        · rw [hnum] at hstr
          exact absurd hstr (by decide)
        · rw [hnum] at hbool
          exact absurd hbool (by decide)
      · rw [if_neg h2] at hc; cases hc
    · rw [if_neg h1] at hn; cases hn
  refine ⟨?_, ?_, ?_⟩
  · intro hn
    rw [mkColStat_numericStats] at hn
    by_cases h1 : ((mkColStat data col).types.length == 1 &&
        (mkColStat data col).types.getD 0 "" == "number" &&
        decide (0 < (colValues data col).length)) = true
    · simp only [Bool.and_eq_true, beq_iff_eq, decide_eq_true_eq] at h1
      rcases List.length_eq_one.mp h1.1.1 with ⟨t, ht⟩
      have ht0 : (mkColStat data col).types.getD 0 "" = t := by rw [ht]; rfl
      refine ⟨?_, ?_⟩
      · rw [ht]
        have htn : t = "number" := by rw [← ht0]; exact h1.1.2
        rw [htn]
      · rw [mkColStat_present]
        exact h1.2
    · rw [if_neg h1] at hn; cases hn
  · intro hc
    rw [mkColStat_categoricalStats] at hc
    by_cases h2 : ((mkColStat data col).types.length == 1 &&
        ((mkColStat data col).types.getD 0 "" == "string" ||
         (mkColStat data col).types.getD 0 "" == "boolean") &&
        decide (0 < (colValues data col).length)) = true
    · simp only [Bool.and_eq_true, beq_iff_eq, Bool.or_eq_true, decide_eq_true_eq] at h2
      rcases List.length_eq_one.mp h2.1.1 with ⟨t, ht⟩
      have ht0 : (mkColStat data col).types.getD 0 "" = t := by rw [ht]; rfl
      refine ⟨?_, ?_, ?_⟩
      · rw [ht]; exact List.cons_ne_nil t []
      · intro u hu
        rw [ht, List.mem_singleton] at hu
        subst hu
        rcases h2.1.2 with hs | hb
        · exact Or.inl (ht0.symm.trans hs)
        · exact Or.inr (ht0.symm.trans hb)
      · rw [mkColStat_present]
        exact h2.2
    · rw [if_neg h2] at hc; cases hc
  · rintro ⟨t₁, h1, t₂, h2, hne⟩
    have hlen := two_mem_ne_two_le_length _ t₁ t₂ h1 h2 hne
    have hlenne : ((mkColStat data col).types.length == 1) = false := by
      simp only [beq_eq_false_iff_ne, ne_eq]
      omega
    constructor
    · rw [mkColStat_numericStats, hlenne]
      simp
    · rw [mkColStat_categoricalStats, hlenne]
      simp

theorem C2_stats_exclusivity_witness :
    ¬((mkColStat [[("a", JSValue.num (JNum.fin (Frac.ofInt 1)))]] "a").numericStats.isSome = true ∧
      (mkColStat [[("a", JSValue.num (JNum.fin (Frac.ofInt 1)))]] "a").categoricalStats.isSome = true) :=
  (C2_stats_exclusivity [[("a", JSValue.num (JNum.fin (Frac.ofInt 1)))]]
    ⟨false, false, false, false, false⟩ "a"
    (mkColStat [[("a", JSValue.num (JNum.fin (Frac.ofInt 1)))]] "a") (by decide)).1

/-- C7: once the column count exceeds the performance caps (50 for the
association matrix and co-missing pairs, 20 for keys and dependencies — so in
particular for 60-column and 51-column tables), the enabled components still
populate their output fields, but with deliberately empty structures. -/
theorem C7_performance_caps (data : List (List (String × JSValue))) (opts : ProfileOptions)
    (h1 : opts.associationMatrix = true) (h2 : opts.keysDependencies = true)
    (h3 : opts.missingnessPatterns = true)
    (h4 : 50 < (profile data opts).columns.length) :
    (profile data opts).associationMatrix = some [] ∧
    (profile data opts).keysAndDependencies = some ⟨[], []⟩ ∧
    ∃ rates, (profile data opts).missingnessPatterns = some ⟨rates, []⟩ := by
  have hne : data ≠ [] := by
    intro hnil
    subst hnil
    simp [profile] at h4
  rw [profile_columns _ opts hne] at h4
  refine ⟨?_, ?_, ?_⟩
  · rw [profile_assoc _ opts hne, h1, if_pos rfl]
    simp only [computeAssociationMatrix]
    rw [if_pos h4]
  · rw [profile_keysDeps _ opts hne, h2, if_pos rfl]
    simp only [computeKeysAndDeps]
    rw [if_pos (by omega : 20 < (columnsOf data).length)]
  · rw [profile_missing _ opts hne, h3, if_pos rfl]
    have hle : ¬ ((columnsOf data).length ≤ 50) := by omega
    apply Exists.intro
    simp only [computeMissingPatterns]
    rw [if_neg hle]

def wideData : List (List (String × JSValue)) :=
  [(List.range 60).map (fun i => ("k" ++ toString i, JSValue.num (JNum.fin (Frac.ofInt 1))))]

set_option maxRecDepth 40000 in
theorem C7_performance_caps_witness :
    (profile wideData ⟨true, true, true, false, false⟩).associationMatrix = some [] ∧
    (profile wideData ⟨true, true, true, false, false⟩).keysAndDependencies = some ⟨[], []⟩ ∧
    ∃ rates, (profile wideData ⟨true, true, true, false, false⟩).missingnessPatterns =
      some ⟨rates, []⟩ :=
  C7_performance_caps wideData ⟨true, true, true, false, false⟩ rfl rfl rfl (by decide)

/-! ## C1: non-finite values at classification time -/

theorem mem_keys_of_rowGet_ne (row : List (String × JSValue)) (col : String)
    (h : rowGet row col ≠ JSValue.undef) : col ∈ row.map (fun e => e.1) := by
  rw [rowGet] at h
  cases hf : row.find? (fun e => e.1 == col) with
  | none => rw [hf] at h; exact absurd rfl h
  | some e =>
    have hmem := List.mem_of_find?_eq_some hf
    have hp := List.find?_some hf
    rw [beq_iff_eq] at hp
    exact hp ▸ List.mem_map.mpr ⟨e, hmem, rfl⟩

/-- C1 counterexample: on the one-row table `[{a: NaN}]` the program counts
the `NaN` as present (present 1, missing 0), lists `number` among the
column's kinds, and computes NumericStats from it — the claim demands
present 0, missing 1, no `number` kind and no NumericStats input. -/
theorem C1_counterexample :
    (statLookup (profile [[("a", JSValue.num JNum.nan)]]
        ⟨false, false, false, false, false⟩).columnStats "a").present = 1 ∧
    (statLookup (profile [[("a", JSValue.num JNum.nan)]]
        ⟨false, false, false, false, false⟩).columnStats "a").missing = 0 ∧
    (statLookup (profile [[("a", JSValue.num JNum.nan)]]
        ⟨false, false, false, false, false⟩).columnStats "a").types = ["number"] ∧
    (statLookup (profile [[("a", JSValue.num JNum.nan)]]
        ⟨false, false, false, false, false⟩).columnStats "a").numericStats.isSome = true := by
  decide

/-- C1 as amended: non-finite numeric values are not excluded at
classification time — a non-finite number in a column counts as present,
contributes the kind `number`, and (when the column is all-number) is
included in the value list from which NumericStats are computed. -/
theorem C1_amended_nonfinite_counted (data : List (List (String × JSValue)))
    (opts : ProfileOptions) (col : String) (j : JNum) (r : List (String × JSValue))
    (hr : r ∈ data) (hv : rowGet r col = JSValue.num j) (_hnf : j.isFinite = false) :
    statLookup (profile data opts).columnStats col = mkColStat data col ∧
    JSValue.num j ∈ colValues data col ∧
    "number" ∈ (mkColStat data col).types ∧
    (mkColStat data col).present = (colValues data col).length ∧
    ((mkColStat data col).types = ["number"] →
      (mkColStat data col).numericStats = computeNumericStats (asNumbers (colValues data col)) ∧
      j ∈ asNumbers (colValues data col)) := by
  have hne : data ≠ [] := by
    intro hnil
    subst hnil
    cases hr
  have hck : col ∈ r.map (fun e => e.1) := by
    apply mem_keys_of_rowGet_ne
    rw [hv]
    exact fun hcon => JSValue.noConfusion hcon
  have hcc : col ∈ columnsOf data := (mem_columnsOf data col).mpr ⟨r, hr, hck⟩
  have hmem : JSValue.num j ∈ colValues data col := by
    rw [colValues, List.mem_filter]
    exact ⟨List.mem_map.mpr ⟨r, hr, hv⟩, rfl⟩
  refine ⟨?_, hmem, ?_, mkColStat_present data col, ?_⟩
  · rw [profile_columnStats _ opts hne]
    exact statLookup_columnStatsOf data col hcc
  · rw [mkColStat_types]
    rw [mem_dedupFirstBy]
    exact List.mem_map.mpr ⟨JSValue.num j, hmem, rfl⟩
  · intro htypes
    have hlen : 0 < (colValues data col).length := List.length_pos.mpr (by
      intro hnil2
      rw [hnil2] at hmem
      cases hmem)
    have hcond : ((mkColStat data col).types.length == 1 &&
        (mkColStat data col).types.getD 0 "" == "number" &&
        decide (0 < (colValues data col).length)) = true := by
      rw [htypes]
      simp [hlen]
    constructor
    · rw [mkColStat_numericStats, if_pos hcond]
    · rw [asNumbers]
      exact List.mem_map.mpr ⟨JSValue.num j, hmem, rfl⟩

theorem C1_amended_witness :
    JSValue.num JNum.inf ∈ colValues [[("a", JSValue.num JNum.inf)]] "a" ∧
    "number" ∈ (mkColStat [[("a", JSValue.num JNum.inf)]] "a").types :=
  ⟨(C1_amended_nonfinite_counted [[("a", JSValue.num JNum.inf)]]
      ⟨false, false, false, false, false⟩ "a" JNum.inf [("a", JSValue.num JNum.inf)]
      (by decide) (by decide) rfl).2.1,
   (C1_amended_nonfinite_counted [[("a", JSValue.num JNum.inf)]]
      ⟨false, false, false, false, false⟩ "a" JNum.inf [("a", JSValue.num JNum.inf)]
      (by decide) (by decide) rfl).2.2.1⟩

/-! ## C8 helpers: constant numeric columns -/

theorem getD_replicate (n i : Nat) (x d : α) (h : i < n) :
    (List.replicate n x).getD i d = x := by
  rw [List.getD_eq_getElem?_getD, List.getElem?_replicate, if_pos h]
  rfl

theorem sortLe_replicate (le : α → α → Bool) (n : Nat) (x : α) :
    sortLe le (List.replicate n x) = List.replicate n x := by
  have hmem : ∀ b ∈ sortLe le (List.replicate n x), b = x := by
    intro b hb
    exact List.eq_of_mem_replicate ((perm_sortLe le _).mem_iff.mp hb)
  have h2 := List.eq_replicate_of_mem hmem
  rwa [length_sortLe, List.length_replicate] at h2

theorem ofInt_n (k : Int) : (Frac.ofInt k).n = k := rfl

theorem percentile_replicate (m : Nat) (hm : 0 < m) (v : Frac) (p : Frac) :
    ∃ w : Frac, percentile (List.replicate m (JNum.fin v)) p = JNum.fin w ∧ w.val = v.val := by
  simp only [percentile, List.length_replicate]
  rw [if_neg (by omega : ¬ m = 0)]
  by_cases hp0 : p.ble (Frac.ofInt 0) = true
  · rw [if_pos hp0]
    exact ⟨v, by rw [getD_replicate m 0 _ _ hm], rfl⟩
  · rw [if_neg hp0]
    by_cases hp100 : (Frac.ofInt 100).ble p = true
    · rw [if_pos hp100]
      exact ⟨v, by rw [getD_replicate m (m - 1) _ _ (by omega)], rfl⟩
    · rw [if_neg hp100]
      have hp0v : 0 < p.val := by
        rcases lt_or_le 0 p.val with h | h
        · exact h
        · exact absurd ((Frac.ble_iff p (Frac.ofInt 0)).mpr (by simpa using h)) hp0
      have hp100v : p.val < 100 := by
        rcases lt_or_le p.val 100 with h | h
        · exact h
        · exact absurd ((Frac.ble_iff (Frac.ofInt 100) p).mpr (by simpa using h)) hp100
      have hival : ((p.div (Frac.ofInt 100)).mul
          ((Frac.ofInt (m : Int)).sub (Frac.ofInt 1))).val = p.val / 100 * ((m : ℚ) - 1) := by
        rw [Frac.val_mul, Frac.val_div _ _ (by rw [ofInt_n]; omega),
          Frac.val_sub, Frac.val_ofInt, Frac.val_ofInt, Frac.val_ofInt]
        push_cast
        ring
      have hinonneg : 0 ≤ ((p.div (Frac.ofInt 100)).mul
          ((Frac.ofInt (m : Int)).sub (Frac.ofInt 1))).val := by
        rw [hival]
        have h1 : (1 : ℚ) ≤ (m : ℚ) := by exact_mod_cast hm
        have h2 : (0 : ℚ) ≤ p.val / 100 := by positivity
        nlinarith
      have him : ((p.div (Frac.ofInt 100)).mul
          ((Frac.ofInt (m : Int)).sub (Frac.ofInt 1))).val ≤ (m : ℚ) - 1 := by
        rw [hival]
        have h1 : (1 : ℚ) ≤ (m : ℚ) := by exact_mod_cast hm
        have h2 : p.val / 100 ≤ 1 := by linarith [div_le_one_of_le₀ (le_of_lt hp100v) (by norm_num : (0:ℚ) ≤ 100)]
        nlinarith
      set ix := (p.div (Frac.ofInt 100)).mul ((Frac.ofInt (m : Int)).sub (Frac.ofInt 1)) with hix
      have hfl : ix.floor = ⌊ix.val⌋ := Frac.floor_eq ix
      have hfl0 : 0 ≤ ix.floor := by
        rw [hfl]
        exact Int.floor_nonneg.mpr hinonneg
      have hfl_le : ix.floor ≤ (m : Int) - 1 := by
        rw [hfl]
        have := Int.floor_mono him
        rwa [show ((m : ℚ) - 1) = (((m : Int) - 1 : Int) : ℚ) by push_cast; ring,
          Int.floor_intCast] at this
      have hlower_lt : ix.floor.toNat < m := by omega
      by_cases hup : m ≤ ix.floor.toNat + 1
      · rw [if_pos hup]
        exact ⟨v, by rw [getD_replicate _ _ _ _ hlower_lt], rfl⟩
      · rw [if_neg hup]
        rw [getD_replicate _ _ _ _ hlower_lt, getD_replicate _ _ _ _ (by omega)]
        refine ⟨(v.mul ((Frac.ofInt 1).sub (ix.sub (Frac.ofInt ix.floor)))).add
          (v.mul (ix.sub (Frac.ofInt ix.floor))), by rw [JNum.jmul_fin, JNum.jmul_fin, JNum.jadd_fin], ?_⟩
        rw [Frac.val_add, Frac.val_mul, Frac.val_mul, Frac.val_sub, Frac.val_sub,
          Frac.val_ofInt, Frac.val_ofInt]
        ring

theorem foldl_jadd_replicate (k : Nat) (v q0 : Frac) :
    ∃ S : Frac, (List.replicate k (JNum.fin v)).foldl JNum.jadd (JNum.fin q0) = JNum.fin S ∧
      S.val = q0.val + k * v.val := by
  induction k generalizing q0 with
  | zero => exact ⟨q0, rfl, by simp⟩
  | succ k ih =>
    rw [List.replicate_succ, List.foldl_cons, JNum.jadd_fin]
    rcases ih (q0.add v) with ⟨S, h1, h2⟩
    refine ⟨S, h1, ?_⟩
    rw [h2, Frac.val_add]
    push_cast
    ring

theorem foldl_sq_replicate (k : Nat) (v mv q0 : Frac) :
    ∃ S : Frac, (List.replicate k (JNum.fin v)).foldl
        (fun a x => a.jadd ((x.jsub (JNum.fin mv)).jmul (x.jsub (JNum.fin mv))))
        (JNum.fin q0) = JNum.fin S ∧
      S.val = q0.val + k * ((v.val - mv.val) * (v.val - mv.val)) := by
  induction k generalizing q0 with
  | zero => exact ⟨q0, rfl, by simp⟩
  | succ k ih =>
    rw [List.replicate_succ, List.foldl_cons, JNum.jsub_fin, JNum.jmul_fin, JNum.jadd_fin]
    rcases ih (q0.add ((v.add mv.neg).mul (v.add mv.neg))) with ⟨S, h1, h2⟩
    refine ⟨S, h1, ?_⟩
    rw [h2, Frac.val_add, Frac.val_mul, Frac.val_add, Frac.val_neg]
    push_cast
    ring

theorem computeNumericStats_replicate (m : Nat) (hm : 0 < m) (v : Frac) :
    ∃ ns : NumericStats, computeNumericStats (List.replicate m (JNum.fin v)) = some ns ∧
      (∃ q1 : Frac, ns.quartiles.1 = JNum.fin q1 ∧ q1.val = v.val) ∧
      (∃ q3 : Frac, ns.quartiles.2.2 = JNum.fin q3 ∧ q3.val = v.val) ∧
      (∃ sd : Frac, ns.stddev = JNum.fin sd ∧ sd.val = 0) := by
  simp only [computeNumericStats, List.length_replicate]
  rw [if_neg (by omega : ¬ m = 0)]
  rw [sortLe_replicate]
  rcases foldl_jadd_replicate m v (Frac.ofInt 0) with ⟨S, hS, hSval⟩
  rw [hS]
  have hmean : JNum.jdiv (JNum.fin S) (JNum.fin (Frac.ofInt (m : Int))) =
      JNum.fin (S.div (Frac.ofInt (m : Int))) := by
    apply JNum.jdiv_fin
    rw [ofInt_n]
    omega
  rw [hmean]
  have hmval : (S.div (Frac.ofInt (m : Int))).val = v.val := by
    have hm0 : ((m : ℚ)) ≠ 0 := by
      have : m ≠ 0 := by omega
      exact_mod_cast this
    rw [Frac.val_div _ _ (by rw [ofInt_n]; omega), hSval, Frac.val_ofInt, Frac.val_ofInt]
    push_cast
    rw [zero_add, mul_comm, mul_div_assoc, div_self hm0, mul_one]
  rcases percentile_replicate m hm v (Frac.ofInt 25) with ⟨q1, hq1, hq1v⟩
  rcases percentile_replicate m hm v (Frac.ofInt 50) with ⟨q2, hq2, hq2v⟩
  rcases percentile_replicate m hm v (Frac.ofInt 75) with ⟨q3, hq3, hq3v⟩
  rw [hq1, hq2, hq3]
  by_cases hm1 : 1 < m
  · rw [if_pos hm1]
    rcases foldl_sq_replicate m v (S.div (Frac.ofInt (m : Int))) (Frac.ofInt 0) with ⟨V, hV, hVval⟩
    rw [hV]
    have hVz : V.val = 0 := by
      rw [hVval, hmval, Frac.val_ofInt]
      ring
    have hnm1 : ((Frac.ofInt (m : Int)).sub (Frac.ofInt 1)).n ≠ 0 := by
      show (m : Int) * 1 + (-1) * 1 ≠ 0
      omega
    rw [JNum.jdiv_fin _ _ hnm1]
    have hvarz : (V.div ((Frac.ofInt (m : Int)).sub (Frac.ofInt 1))).val = 0 := by
      rw [Frac.val_div _ _ hnm1, hVz, zero_div]
    have hvarn : (V.div ((Frac.ofInt (m : Int)).sub (Frac.ofInt 1))).n = 0 :=
      (Frac.val_eq_zero_iff _).mp hvarz
    rw [JNum.jsqrt_fin _ (by omega)]
    refine ⟨_, rfl, ⟨q1, rfl, hq1v⟩, ⟨q3, rfl, hq3v⟩,
      ⟨(V.div ((Frac.ofInt (m : Int)).sub (Frac.ofInt 1))).qsqrt, rfl, ?_⟩⟩
    rw [Frac.val_qsqrt]
    exact hvarz
  · rw [if_neg hm1]
    rw [JNum.jsqrt_fin _ (by rw [ofInt_n]; omega)]
    refine ⟨_, rfl, ⟨q1, rfl, hq1v⟩, ⟨q3, rfl, hq3v⟩, ⟨(Frac.ofInt 0).qsqrt, rfl, ?_⟩⟩
    rw [Frac.val_qsqrt, Frac.val_ofInt]
    rfl

theorem find?_filterMap_graph (l : List String) (g : String → Option β) (c : String)
    (hc : c ∈ l) (b : β) (hg : g c = some b) :
    (((l.filterMap (fun x => (g x).map (fun y => (x, y)))).find?
        (fun e => e.1 == c)).map (fun e => e.2)) = some b := by
  induction l with
  | nil => cases hc
  | cons x xs ih =>
    rw [List.filterMap_cons]
    cases hgx : g x with
    | none =>
      simp only [Option.map_none', hgx]
      rcases List.mem_cons.mp hc with rfl | h2
      · rw [hg] at hgx
        cases hgx
      · exact ih h2
    | some y =>
      simp only [Option.map_some', hgx]
      rw [List.find?_cons]
      by_cases hx : x = c
      · subst hx
        rw [hg] at hgx
        simp only [beq_self_eq_true]
        rw [Option.some_inj.mp hgx]
        rfl
      · have hb : ((x, y).1 == c) = false := by simp [hx]
        rw [hb]
        rcases List.mem_cons.mp hc with rfl | h2
        · exact absurd rfl hx
        · exact ih h2

theorem foldl_fixed (l : List α) (f : β → α → β) (t : β)
    (h : ∀ t' x, x ∈ l → f t' x = t') : l.foldl f t = t := by
  induction l generalizing t with
  | nil => rfl
  | cons x xs ih =>
    rw [List.foldl_cons, h t x (List.mem_cons_self x xs)]
    exact ih t (fun t' y hy => h t' y (List.mem_cons_of_mem x hy))

theorem blt_false_of_val_eq (a b : Frac) (h : a.val = b.val) : a.blt b = false := by
  rcases hb : a.blt b with _ | _
  · rfl
  · exact absurd (h ▸ (Frac.blt_iff a b).mp hb) (lt_irrefl _)

/-- C8: for a numeric column whose present values are all one constant value,
the outlier detector reports a Tukey-fence count of 0 and a z-score count of
0: the zero sample standard deviation makes the z-score comparison
never-true (no division by zero is observable), and the collapsed fences
exclude nothing. -/
theorem C8_constant_column_outliers (data : List (List (String × JSValue)))
    (opts : ProfileOptions) (col : String) (v : Frac)
    (h1 : opts.outliers = true)
    (h2 : col ∈ (profile data opts).columns)
    (h3 : (statLookup (profile data opts).columnStats col).numericStats.isSome = true)
    (h4 : ∀ x ∈ colValues data col, x = JSValue.num (JNum.fin v)) :
    ((((profile data opts).outliers.getD []).find? (fun e => e.1 == col)).map
      (fun e => e.2)) = some ⟨0, 0⟩ := by
  have hne : data ≠ [] := by
    intro hnil
    subst hnil
    simp [profile] at h2
  rw [profile_columns _ opts hne] at h2
  rw [profile_columnStats _ opts hne, statLookup_columnStatsOf data col h2] at h3
  -- the column's values are a replicate
  have hrep : colValues data col = List.replicate (colValues data col).length
      (JSValue.num (JNum.fin v)) := List.eq_replicate_of_mem h4
  have hnums : asNumbers (colValues data col) =
      List.replicate (colValues data col).length (JNum.fin v) := by
    rw [asNumbers, hrep, List.map_replicate]
    simp
  -- NumericStats is present, so the column is nonempty
  have hpos : 0 < (colValues data col).length := by
    rcases Nat.eq_zero_or_pos (colValues data col).length with hz | hp
    · exfalso
      rw [mkColStat_numericStats] at h3
      have : (decide (0 < (colValues data col).length)) = false := by
        rw [hz]
        rfl
      rw [this] at h3
      simp at h3
    · exact hp
  rcases computeNumericStats_replicate (colValues data col).length hpos v with
    ⟨ns, hns, ⟨q1, hq1, hq1v⟩, ⟨q3, hq3, hq3v⟩, ⟨sd, hsd, hsdv⟩⟩
  have hstat : (mkColStat data col).numericStats = some ns := by
    rw [mkColStat_numericStats] at h3 ⊢
    by_cases hcond : ((mkColStat data col).types.length == 1 &&
        (mkColStat data col).types.getD 0 "" == "number" &&
        decide (0 < (colValues data col).length)) = true
    · rw [if_pos hcond, hnums, hns]
    · rw [if_neg hcond] at h3
      cases h3
  rw [profile_outliers _ opts hne, h1, if_pos rfl, Option.getD_some, computeOutliers]
  apply find?_filterMap_graph _ _ _ h2
  rw [outlierEntry, statLookup_columnStatsOf data col h2, hstat]
  simp only
  rw [hnums]
  have hstep : (List.replicate (colValues data col).length (JNum.fin v)).foldl
      (fun (t : Nat × Nat) x =>
        (if x.jlt (ns.quartiles.1.jsub ((JNum.fin (Frac.ofPair 3 2)).jmul
              (ns.quartiles.2.2.jsub ns.quartiles.1))) ||
            (ns.quartiles.2.2.jadd ((JNum.fin (Frac.ofPair 3 2)).jmul
              (ns.quartiles.2.2.jsub ns.quartiles.1))).jlt x
         then t.1 + 1 else t.1,
         if (JNum.fin (Frac.ofInt 0)).jlt ns.stddev &&
            (JNum.fin (Frac.ofInt 3)).jlt (((x.jsub ns.mean).jdiv ns.stddev).jabs)
         then t.2 + 1 else t.2)) (0, 0) = (0, 0) := by
    apply foldl_fixed
    intro t x hx
    have hxv : x = JNum.fin v := List.eq_of_mem_replicate hx
    subst hxv
    have hz : (JNum.fin (Frac.ofInt 0)).jlt ns.stddev = false := by
      rw [hsd, JNum.jlt_fin]
      apply blt_false_of_val_eq
      rw [hsdv, Frac.val_ofInt]
      rfl
    have hiqr : ns.quartiles.2.2.jsub ns.quartiles.1 = JNum.fin (q3.add q1.neg) := by
      rw [hq1, hq3, JNum.jsub_fin]
    have hlf : ns.quartiles.1.jsub ((JNum.fin (Frac.ofPair 3 2)).jmul
        (ns.quartiles.2.2.jsub ns.quartiles.1)) =
        JNum.fin (q1.add ((Frac.ofPair 3 2).mul (q3.add q1.neg)).neg) := by
      rw [hiqr, hq1, JNum.jmul_fin, JNum.jsub_fin]
    have huf : ns.quartiles.2.2.jadd ((JNum.fin (Frac.ofPair 3 2)).jmul
        (ns.quartiles.2.2.jsub ns.quartiles.1)) =
        JNum.fin (q3.add ((Frac.ofPair 3 2).mul (q3.add q1.neg))) := by
      rw [hiqr, hq3, JNum.jmul_fin, JNum.jadd_fin]
    have hlfv : (q1.add ((Frac.ofPair 3 2).mul (q3.add q1.neg)).neg).val = v.val := by
      rw [Frac.val_add, Frac.val_neg, Frac.val_mul, Frac.val_add, Frac.val_neg, hq1v, hq3v]
      ring
    have hufv : (q3.add ((Frac.ofPair 3 2).mul (q3.add q1.neg))).val = v.val := by
      rw [Frac.val_add, Frac.val_mul, Frac.val_add, Frac.val_neg, hq1v, hq3v]
      ring
    have htk1 : (JNum.fin v).jlt (ns.quartiles.1.jsub ((JNum.fin (Frac.ofPair 3 2)).jmul
        (ns.quartiles.2.2.jsub ns.quartiles.1))) = false := by
      rw [hlf, JNum.jlt_fin]
      exact blt_false_of_val_eq _ _ (by rw [hlfv])
    have htk2 : (ns.quartiles.2.2.jadd ((JNum.fin (Frac.ofPair 3 2)).jmul
        (ns.quartiles.2.2.jsub ns.quartiles.1))).jlt (JNum.fin v) = false := by
      rw [huf, JNum.jlt_fin]
      exact blt_false_of_val_eq _ _ (by rw [hufv])
    rw [htk1, htk2, hz]
    simp
  rw [hstep]

theorem C8_constant_column_outliers_witness :
    ((((profile [[("a", JSValue.num (JNum.fin (Frac.ofInt 5)))],
          [("a", JSValue.num (JNum.fin (Frac.ofInt 5)))]]
        ⟨false, false, false, true, false⟩).outliers.getD []).find?
      (fun e => e.1 == "a")).map (fun e => e.2)) = some ⟨0, 0⟩ :=
  C8_constant_column_outliers
    [[("a", JSValue.num (JNum.fin (Frac.ofInt 5)))],
     [("a", JSValue.num (JNum.fin (Frac.ofInt 5)))]]
    ⟨false, false, false, true, false⟩ "a" (Frac.ofInt 5) rfl (by decide) (by decide) (by decide)

/-! ## C6 helpers: the functional dependency detector -/

theorem setAdd_length (g : List (String × List String)) (k v : String) :
    (setAdd g k v).length = g.length := by
  induction g with
  | nil => rfl
  | cons e rest ih =>
    rw [setAdd]
    by_cases h : e.1 == k
    · rw [if_pos h]
      rfl
    · rw [if_neg h]
      simp only [List.length_cons, ih]

theorem fdStep_length (a b : String) (acc : List (String × List String))
    (row : List (String × JSValue)) :
    (fdStep a b acc row).length ≤ acc.length + (if isPresent (rowGet row a) then 1 else 0) := by
  cases hp : isPresent (rowGet row a) <;> cases hb : isPresent (rowGet row b) <;>
    by_cases hm : (acc.any fun e => e.1 == fdKey (rowGet row a)) = true <;>
    simp [fdStep, hp, hb, hm, setAdd_length]

theorem colValues_cons (r : List (String × JSValue)) (rows : List (List (String × JSValue)))
    (col : String) :
    colValues (r :: rows) col =
      (if isPresent (rowGet r col) then [rowGet r col] else []) ++ colValues rows col := by
  rw [colValues, colValues, List.map_cons, List.filter_cons]
  by_cases h : isPresent (rowGet r col)
  · rw [if_pos h, if_pos h]
    rfl
  · rw [if_neg h, if_neg h]
    rfl

theorem fdGroups_foldl_length (a b : String) (rows : List (List (String × JSValue)))
    (acc : List (String × List String)) :
    (rows.foldl (fdStep a b) acc).length ≤ acc.length + (colValues rows a).length := by
  induction rows generalizing acc with
  | nil =>
    simp [colValues]
  | cons r rest ih =>
    rw [List.foldl_cons, colValues_cons]
    have h1 := ih (fdStep a b acc r)
    have h2 := fdStep_length a b acc r
    rw [List.length_append]
    by_cases hp : isPresent (rowGet r a)
    · rw [if_pos hp] at h2 ⊢
      simp only [List.length_cons, List.length_nil]
      omega
    · rw [if_neg hp] at h2 ⊢
      simp only [List.length_nil]
      omega

theorem fdGroups_length_le (data : List (List (String × JSValue))) (a b : String) :
    (fdGroups data a b).length ≤ (colValues data a).length := by
  have := fdGroups_foldl_length a b data []
  simpa using this

def fdCexData : List (List (String × JSValue)) :=
  [[("a", JSValue.num (JNum.fin (Frac.ofInt 1))), ("b", JSValue.num (JNum.fin (Frac.ofInt 1)))],
   [("a", JSValue.num (JNum.fin (Frac.ofInt 1))), ("b", JSValue.num (JNum.fin (Frac.ofInt 1)))]]

/-- C6 counterexample: in the two-row table `[{a:1, b:1}, {a:1, b:1}]` every
distinct non-missing value of `a` (there is exactly one) maps to exactly one
stringified value of `b`, `a` is not a candidate key, the table has at most
20 columns and the option is enabled, yet the program reports no functional
dependencies at all — the claim's conclusion `(a → b) ∈
functionalDependencies` fails, because the code additionally requires at
least two distinct determinant groups. -/
theorem C6_counterexample :
    (profile fdCexData ⟨false, true, false, false, false⟩).keysAndDependencies =
      some ⟨[], []⟩ ∧
    (∀ g ∈ fdGroups fdCexData "a" "b", g.2.length = 1) ∧
    "a" ∉ kdUniqueCols (columnsOf fdCexData) fdCexData fdCexData.length ∧
    (profile fdCexData ⟨false, true, false, false, false⟩).columns.length ≤ 20 := by
  decide

/-- C6 (amended): if every distinct non-missing value of column `a` maps to
exactly one stringified value of column `b`, column `a` is not a candidate
key, AND at least two distinct determinant groups exist, then the ordered
dependency `([a], b)` is reported (table of at most 20 columns, option
enabled). -/
theorem C6_functional_dependency (data : List (List (String × JSValue)))
    (opts : ProfileOptions) (a b : String)
    (h1 : opts.keysDependencies = true)
    (h2 : (profile data opts).columns.length ≤ 20)
    (ha : a ∈ (profile data opts).columns)
    (hb : b ∈ (profile data opts).columns)
    (hab : a ≠ b)
    (hkey : a ∉ kdUniqueCols (columnsOf data) data data.length)
    (hone : ∀ g ∈ fdGroups data a b, g.2.length = 1)
    (hsize : 1 < (fdGroups data a b).length) :
    ([a], b) ∈ ((profile data opts).keysAndDependencies.getD
      ⟨[], []⟩).functionalDependencies := by
  have hne : data ≠ [] := by
    intro hnil
    subst hnil
    simp [profile] at ha
  rw [profile_columns _ opts hne] at ha hb h2
  rw [profile_keysDeps _ opts hne, h1, if_pos rfl, Option.getD_some]
  rw [computeKeysAndDeps, if_neg (by omega : ¬ 20 < (columnsOf data).length)]
  simp only
  rcases List.mem_iff_getElem?.mp ha with ⟨i, hi⟩
  rcases List.mem_iff_getElem?.mp hb with ⟨j, hj⟩
  have hij : i ≠ j := by
    intro hcon
    subst hcon
    rw [hi] at hj
    exact hab (Option.some_inj.mp hj)
  have hlen2 : 2 ≤ (colValues data a).length :=
    le_trans hsize (fdGroups_length_le data a b)
  apply List.mem_flatMap.mpr
  refine ⟨(i, a), List.mem_enum_iff_getElem?.mpr hi, ?_⟩
  rw [if_neg (by omega : ¬ (colValues data a).length < 2)]
  apply List.mem_flatMap.mpr
  refine ⟨(j, b), List.mem_enum_iff_getElem?.mpr hj, ?_⟩
  have hijb : ((i, a).1 == (j, b).1) = false := by
    simp [hij]
  rw [hijb, if_neg (by simp : ¬ (false = true))]
  have hany : ((kdUniqueCols (columnsOf data) data data.length).any
      (fun u => u == (i, a).2)) = false := by
    rw [List.any_eq_false]
    intro u hu
    simp only [beq_iff_eq]
    intro hcon
    exact hkey (hcon ▸ hu)
  rw [hany, if_neg (by simp : ¬ (false = true))]
  have hcond : ((fdGroups data (i, a).2 (j, b).2).all (fun g => decide (g.2.length ≤ 1)) &&
      decide (1 < (fdGroups data (i, a).2 (j, b).2).length)) = true := by
    rw [Bool.and_eq_true]
    constructor
    · rw [List.all_eq_true]
      intro g hg
      have := hone g hg
      simp [this]
    · simpa using hsize
  rw [if_pos hcond]
  exact List.mem_singleton.mpr rfl

def fdWitData : List (List (String × JSValue)) :=
  [[("a", JSValue.num (JNum.fin (Frac.ofInt 1))), ("b", JSValue.num (JNum.fin (Frac.ofInt 1)))],
   [("a", JSValue.num (JNum.fin (Frac.ofInt 1))), ("b", JSValue.num (JNum.fin (Frac.ofInt 1)))],
   [("a", JSValue.num (JNum.fin (Frac.ofInt 2))), ("b", JSValue.num (JNum.fin (Frac.ofInt 2)))]]

theorem C6_functional_dependency_witness :
    (["a"], "b") ∈ ((profile fdWitData
      ⟨false, true, false, false, false⟩).keysAndDependencies.getD
      ⟨[], []⟩).functionalDependencies :=
  C6_functional_dependency fdWitData ⟨false, true, false, false, false⟩ "a" "b" rfl
    (by decide) (by decide) (by decide) (by decide) (by decide) (by decide) (by decide)

/-! ## C4 helpers: the filled cells of the association matrix -/

/-- The cells contributed by a list of ordered column pairs, two symmetric
entries per pair with a defined statistic (the flatMap body of
`computeAssociationMatrix` over an abstract per-pair statistic `f`). -/
def assocOf (f : String → String → JNum) (P : List (String × String)) :
    List (String × String × JNum) :=
  P.flatMap (fun p =>
    if (f p.1 p.2).isNaN then [] else [(p.1, p.2, f p.1 p.2), (p.2, p.1, f p.1 p.2)])

theorem computeAssociationMatrix_eq (columns : List String)
    (columnStats : List (String × ColStat)) (data : List (List (String × JSValue))) :
    computeAssociationMatrix columns columnStats data =
      if 50 < columns.length then []
      else assocOf (pairStat columnStats data) (pairsOf columns) := rfl

theorem assocLookup_append (m1 m2 : List (String × String × JNum)) (a b : String) :
    assocLookup (m1 ++ m2) a b = (assocLookup m1 a b).or (assocLookup m2 a b) := by
  rw [assocLookup, assocLookup, assocLookup, List.find?_append]
  cases m1.find? (fun e => e.1 == a && e.2.1 == b) <;> simp [Option.or]

theorem assocLookup_pairblock (x y : String) (v : JNum) (a b : String) (hxy : x ≠ y) :
    assocLookup [(x, y, v), (y, x, v)] a b =
      (if x = a ∧ y = b then some v else if y = a ∧ x = b then some v else none) := by
  rw [assocLookup]
  by_cases hxa : x = a <;> by_cases hyb : y = b <;> by_cases hya : y = a <;>
    by_cases hxb : x = b <;>
    simp_all [List.find?_cons]

theorem assocLookup_nil (a b : String) : assocLookup [] a b = none := rfl

theorem opt_some_or (a : α) (o : Option α) : (some a).or o = some a := rfl

theorem assocOf_cons (f : String → String → JNum) (p : String × String)
    (rest : List (String × String)) :
    assocOf f (p :: rest) =
      (if (f p.1 p.2).isNaN then [] else [(p.1, p.2, f p.1 p.2), (p.2, p.1, f p.1 p.2)]) ++
        assocOf f rest := by
  rw [assocOf, List.flatMap_cons, assocOf]

theorem assocOf_lookup_symm (f : String → String → JNum) (P : List (String × String))
    (hne : ∀ p ∈ P, p.1 ≠ p.2) (a b : String) :
    assocLookup (assocOf f P) a b = assocLookup (assocOf f P) b a := by
  induction P with
  | nil => rfl
  | cons p rest ih =>
    have hxy := hne p (List.mem_cons_self p rest)
    have hner : ∀ q ∈ rest, q.1 ≠ q.2 := fun q hq => hne q (List.mem_cons_of_mem p hq)
    rw [assocOf_cons, assocLookup_append, assocLookup_append]
    by_cases hnan : (f p.1 p.2).isNaN = true
    · rw [if_pos hnan, assocLookup_nil, assocLookup_nil, ih hner]
    · rw [if_neg hnan]
      rw [assocLookup_pairblock _ _ _ a b hxy, assocLookup_pairblock _ _ _ b a hxy]
      by_cases h1 : p.1 = a ∧ p.2 = b
      · have hab : a ≠ b := by
          rw [← h1.1, ← h1.2]
          exact hxy
        rw [if_pos h1, if_neg (fun hcon => hab (h1.1.symm.trans hcon.1)),
          if_pos ⟨h1.2, h1.1⟩]
        rfl
      · rw [if_neg h1]
        by_cases h2 : p.2 = a ∧ p.1 = b
        · rw [if_pos h2, if_pos ⟨h2.2, h2.1⟩]
          rfl
        · rw [if_neg h2, if_neg (fun hcon => h2 ⟨hcon.2, hcon.1⟩),
            if_neg (fun hcon => h1 ⟨hcon.2, hcon.1⟩)]
          simp only [Option.none_or]
          exact ih hner

theorem assocOf_lookup_self (f : String → String → JNum) (P : List (String × String))
    (hne : ∀ p ∈ P, p.1 ≠ p.2) (a : String) :
    assocLookup (assocOf f P) a a = none := by
  induction P with
  | nil => rfl
  | cons p rest ih =>
    have hxy := hne p (List.mem_cons_self p rest)
    have hner : ∀ q ∈ rest, q.1 ≠ q.2 := fun q hq => hne q (List.mem_cons_of_mem p hq)
    rw [assocOf_cons, assocLookup_append]
    by_cases hnan : (f p.1 p.2).isNaN = true
    · rw [if_pos hnan, assocLookup_nil]
      simp only [Option.none_or]
      exact ih hner
    · rw [if_neg hnan, assocLookup_pairblock _ _ _ a a hxy]
      rw [if_neg (fun hcon => hxy (hcon.1.trans hcon.2.symm)),
        if_neg (fun hcon => hxy (hcon.2.trans hcon.1.symm))]
      simp only [Option.none_or]
      exact ih hner

theorem assocOf_lookup_not_nan (f : String → String → JNum) (P : List (String × String))
    (hne : ∀ p ∈ P, p.1 ≠ p.2) (a b : String) (v : JNum)
    (h : assocLookup (assocOf f P) a b = some v) : v.isNaN = false := by
  induction P with
  | nil => cases h
  | cons p rest ih =>
    have hxy := hne p (List.mem_cons_self p rest)
    have hner : ∀ q ∈ rest, q.1 ≠ q.2 := fun q hq => hne q (List.mem_cons_of_mem p hq)
    rw [assocOf_cons, assocLookup_append] at h
    by_cases hnan : (f p.1 p.2).isNaN = true
    · rw [if_pos hnan, assocLookup_nil] at h
      simp only [Option.none_or] at h
      exact ih hner h
    · rw [if_neg hnan, assocLookup_pairblock _ _ _ a b hxy] at h
      by_cases h1 : p.1 = a ∧ p.2 = b
      · rw [if_pos h1] at h
        rw [opt_some_or] at h
        rw [← Option.some_inj.mp h]
        exact Bool.not_eq_true _ |>.mp hnan
      · rw [if_neg h1] at h
        by_cases h2 : p.2 = a ∧ p.1 = b
        · rw [if_pos h2] at h
          rw [opt_some_or] at h
          rw [← Option.some_inj.mp h]
          exact Bool.not_eq_true _ |>.mp hnan
        · rw [if_neg h2] at h
          simp only [Option.none_or] at h
          exact ih hner h

theorem assocOf_lookup_absent (f : String → String → JNum) (P : List (String × String))
    (hne : ∀ p ∈ P, p.1 ≠ p.2) (a b : String)
    (habs : ∀ q ∈ P, ¬(q.1 = a ∧ q.2 = b) ∧ ¬(q.1 = b ∧ q.2 = a)) :
    assocLookup (assocOf f P) a b = none := by
  induction P with
  | nil => rfl
  | cons p rest ih =>
    have hxy := hne p (List.mem_cons_self p rest)
    have hner : ∀ q ∈ rest, q.1 ≠ q.2 := fun q hq => hne q (List.mem_cons_of_mem p hq)
    have habsr : ∀ q ∈ rest, ¬(q.1 = a ∧ q.2 = b) ∧ ¬(q.1 = b ∧ q.2 = a) :=
      fun q hq => habs q (List.mem_cons_of_mem p hq)
    have hp := habs p (List.mem_cons_self p rest)
    rw [assocOf_cons, assocLookup_append]
    by_cases hnan : (f p.1 p.2).isNaN = true
    · rw [if_pos hnan, assocLookup_nil]
      simp only [Option.none_or]
      exact ih hner habsr
    · rw [if_neg hnan, assocLookup_pairblock _ _ _ a b hxy]
      rw [if_neg hp.1, if_neg (fun hcon => hp.2 ⟨hcon.2, hcon.1⟩)]
      simp only [Option.none_or]
      exact ih hner habsr

theorem assocOf_lookup_found (f : String → String → JNum) (P : List (String × String))
    (hne : ∀ p ∈ P, p.1 ≠ p.2) (hnd : P.Nodup)
    (hasc : ∀ p ∈ P, p.1 < p.2) (a b : String) (hmem : (a, b) ∈ P) :
    assocLookup (assocOf f P) a b =
      (if (f a b).isNaN then none else some (f a b)) := by
  induction P with
  | nil => cases hmem
  | cons p rest ih =>
    have hxy := hne p (List.mem_cons_self p rest)
    have hner : ∀ q ∈ rest, q.1 ≠ q.2 := fun q hq => hne q (List.mem_cons_of_mem p hq)
    have hascr : ∀ q ∈ rest, q.1 < q.2 := fun q hq => hasc q (List.mem_cons_of_mem p hq)
    rcases List.nodup_cons.mp hnd with ⟨hpnot, hndr⟩
    rw [assocOf_cons, assocLookup_append]
    rcases List.mem_cons.mp hmem with rfl | hmem2
    · -- the head pair is exactly (a, b)
      have habs : ∀ q ∈ rest, ¬(q.1 = a ∧ q.2 = b) ∧ ¬(q.1 = b ∧ q.2 = a) := by
        intro q hq
        constructor
        · rintro ⟨hq1, hq2⟩
          exact hpnot (by
            have : q = (a, b) := Prod.ext hq1 hq2
            rwa [← this])
        · rintro ⟨hq1, hq2⟩
          have hab : a < b := hasc (a, b) (List.mem_cons_self _ _)
          have hba : b < a := by
            have := hascr q hq
            rwa [hq1, hq2] at this
          exact absurd (hab.trans hba) (lt_irrefl a)
      by_cases hnan : (f a b).isNaN = true
      · rw [if_pos hnan, if_pos hnan, assocLookup_nil]
        simp only [Option.none_or]
        exact assocOf_lookup_absent f rest hner a b habs
      · rw [if_neg hnan, if_neg hnan, assocLookup_pairblock _ _ _ a b hxy]
        rw [if_pos ⟨rfl, rfl⟩]
        rfl
    · -- the pair sits in the tail; the head block cannot match
      have hab : a < b := hasc (a, b) (List.mem_cons_of_mem p hmem2)
      have hno1 : ¬(p.1 = a ∧ p.2 = b) := by
        rintro ⟨hq1, hq2⟩
        exact hpnot (by
          have : p = (a, b) := Prod.ext hq1 hq2
          rw [← this] at hmem2
          exact hmem2)
      have hno2 : ¬(p.1 = b ∧ p.2 = a) := by
        rintro ⟨hq1, hq2⟩
        have hpa := hasc p (List.mem_cons_self p rest)
        rw [hq1, hq2] at hpa
        exact absurd (hab.trans hpa) (lt_irrefl a)
      by_cases hnan : (f p.1 p.2).isNaN = true
      · rw [if_pos hnan, assocLookup_nil]
        simp only [Option.none_or]
        exact ih hner hndr hascr hmem2
      · rw [if_neg hnan, assocLookup_pairblock _ _ _ a b hxy]
        rw [if_neg hno1, if_neg (fun hcon => hno2 ⟨hcon.2, hcon.1⟩)]
        simp only [Option.none_or]
        exact ih hner hndr hascr hmem2

/-! ## `pairsOf` facts -/

theorem pairsOf_mem_both (l : List α) (p : α × α) (hp : p ∈ pairsOf l) :
    p.1 ∈ l ∧ p.2 ∈ l := by
  induction l with
  | nil => cases hp
  | cons x xs ih =>
    rw [pairsOf, List.mem_append] at hp
    rcases hp with h | h
    · rcases List.mem_map.mp h with ⟨y, hy, rfl⟩
      exact ⟨List.mem_cons_self x xs, List.mem_cons_of_mem x hy⟩
    · rcases ih h with ⟨h1, h2⟩
      exact ⟨List.mem_cons_of_mem x h1, List.mem_cons_of_mem x h2⟩

theorem pairsOf_asc (l : List String) (hl : l.Pairwise (· < ·)) :
    ∀ p ∈ pairsOf l, p.1 < p.2 := by
  induction l with
  | nil => intro p hp; cases hp
  | cons x xs ih =>
    rcases List.pairwise_cons.mp hl with ⟨hx, hxs⟩
    intro p hp
    rw [pairsOf, List.mem_append] at hp
    rcases hp with h | h
    · rcases List.mem_map.mp h with ⟨y, hy, rfl⟩
      exact hx y hy
    · exact ih hxs p h

theorem pairsOf_ne (l : List String) (hl : l.Pairwise (· < ·)) :
    ∀ p ∈ pairsOf l, p.1 ≠ p.2 :=
  fun p hp => ne_of_lt (pairsOf_asc l hl p hp)

theorem pairsOf_nodup (l : List String) (hl : l.Pairwise (· < ·)) :
    (pairsOf l).Nodup := by
  induction l with
  | nil => exact List.nodup_nil
  | cons x xs ih =>
    rcases List.pairwise_cons.mp hl with ⟨hx, hxs⟩
    rw [pairsOf]
    rw [List.nodup_append]
    refine ⟨?_, ih hxs, ?_⟩
    · apply List.Nodup.map
      · intro u v huv
        exact congrArg Prod.snd huv
      · exact hxs.imp (fun h => ne_of_lt h)
    · intro q hq hq2
      rcases List.mem_map.mp hq with ⟨y, hy, hqe⟩
      have hfst := (pairsOf_mem_both xs q hq2).1
      rw [← hqe] at hfst
      have hxx : x < x := hx x hfst
      exact absurd hxx (lt_irrefl x)

theorem pairsOf_mem_of (l : List String) (hl : l.Pairwise (· < ·)) (a b : String)
    (ha : a ∈ l) (hb : b ∈ l) (hab : a < b) : (a, b) ∈ pairsOf l := by
  induction l with
  | nil => cases ha
  | cons x xs ih =>
    rcases List.pairwise_cons.mp hl with ⟨hx, hxs⟩
    rw [pairsOf, List.mem_append]
    rcases List.mem_cons.mp ha with hax | ha2
    · rcases List.mem_cons.mp hb with hbx | hb2
      · rw [hax, ← hbx] at hab
        exact absurd hab (lt_irrefl b)
      · subst hax
        exact Or.inl (List.mem_map.mpr ⟨b, hb2, rfl⟩)
    · rcases List.mem_cons.mp hb with hbx | hb2
      · have hxa := hx a ha2
        rw [← hbx] at hxa
        exact absurd (hab.trans hxa) (lt_irrefl a)
      · exact Or.inr (ih hxs ha2 hb2)

/-- C4: with association enabled and at most 50 columns, the filled-cell
matrix is symmetric, has no self-association cells, stores no NaN, and —
for an ordered pair of actual columns — holds a cell exactly when the pair's
dispatched statistic is defined (not NaN). -/
theorem C4_association_matrix (data : List (List (String × JSValue)))
    (opts : ProfileOptions) (a b : String) (M : List (String × String × JNum))
    (h1 : opts.associationMatrix = true)
    (hM : (profile data opts).associationMatrix = some M)
    (hcap : (profile data opts).columns.length ≤ 50) :
    assocLookup M a b = assocLookup M b a ∧
    assocLookup M a a = none ∧
    (∀ v, assocLookup M a b = some v → v.isNaN = false) ∧
    (a ∈ (profile data opts).columns → b ∈ (profile data opts).columns → a < b →
      assocLookup M a b = (if (pairStat (columnStatsOf data) data a b).isNaN then none
        else some (pairStat (columnStatsOf data) data a b))) := by
  have hne : data ≠ [] := by
    intro hnil
    subst hnil
    rw [profile] at hM
    simp at hM
  rw [profile_assoc _ opts hne, h1, if_pos rfl] at hM
  rw [profile_columns _ opts hne] at hcap
  have hMe : M = assocOf (pairStat (columnStatsOf data) data) (pairsOf (columnsOf data)) := by
    have h2 := Option.some_inj.mp hM
    rw [computeAssociationMatrix_eq, if_neg (by omega)] at h2
    exact h2.symm
  subst hMe
  have hsl := columnsOf_sorted_lt data
  have hne2 := pairsOf_ne _ hsl
  refine ⟨assocOf_lookup_symm _ _ hne2 a b, assocOf_lookup_self _ _ hne2 a,
    fun v hv => assocOf_lookup_not_nan _ _ hne2 a b v hv, ?_⟩
  intro hac hbc hab
  rw [profile_columns _ opts hne] at hac hbc
  exact assocOf_lookup_found _ _ hne2 (pairsOf_nodup _ hsl) (pairsOf_asc _ hsl) a b
    (pairsOf_mem_of _ hsl a b hac hbc hab)

def c4WitData : List (List (String × JSValue)) :=
  [[("x", JSValue.num (JNum.fin (Frac.ofInt 1))), ("y", JSValue.num (JNum.fin (Frac.ofInt 2)))],
   [("x", JSValue.num (JNum.fin (Frac.ofInt 2))), ("y", JSValue.num (JNum.fin (Frac.ofInt 4)))],
   [("x", JSValue.num (JNum.fin (Frac.ofInt 3))), ("y", JSValue.num (JNum.fin (Frac.ofInt 5)))]]

theorem C4_association_matrix_witness :
    assocLookup ((profile c4WitData ⟨true, false, false, false, false⟩).associationMatrix.getD [])
        "x" "y" =
      assocLookup ((profile c4WitData ⟨true, false, false, false, false⟩).associationMatrix.getD [])
        "y" "x" ∧
    assocLookup ((profile c4WitData ⟨true, false, false, false, false⟩).associationMatrix.getD [])
        "x" "x" = none :=
  ⟨(C4_association_matrix c4WitData ⟨true, false, false, false, false⟩ "x" "y"
      ((profile c4WitData ⟨true, false, false, false, false⟩).associationMatrix.getD [])
      rfl (by decide) (by decide)).1,
   (C4_association_matrix c4WitData ⟨true, false, false, false, false⟩ "x" "y"
      ((profile c4WitData ⟨true, false, false, false, false⟩).associationMatrix.getD [])
      rfl (by decide) (by decide)).2.1⟩

/-! ## C5 helpers: evaluating `pearsonFromData` on finite data -/

/-- Modelled from the claim's wording ("nonzero variance"): the sum of
squared deviations from the mean, the numerator of the sample variance.  The
sample variance is this divided by `n - 1`, so over at least two
observations it is nonzero exactly when this is. -/
def devSS (l : List ℚ) : ℚ :=
  (l.map (fun x => (x - l.sum / l.length) * (x - l.sum / l.length))).sum

/-- Modelled from the claim's wording: the rows in which both columns hold
present finite numbers (the set of paired observations the claim says the
Pearson cell is computed over). -/
def finitePairs (data : List (List (String × JSValue))) (c1 c2 : String) :
    List (Frac × Frac) :=
  data.filterMap (fun row =>
    match rowGet row c1, rowGet row c2 with
    | JSValue.num (JNum.fin x), JSValue.num (JNum.fin y) => some (x, y)
    | _, _ => none)

theorem qsqrt_eq (a : Frac) : a.qsqrt = a := rfl

theorem pearsonPaired_eq (data : List (List (String × JSValue))) (c1 c2 : String) :
    pearsonPaired data c1 c2 = data.filterMap (fun row =>
      match rowGet row c1, rowGet row c2 with
      | JSValue.num x, JSValue.num y => some (x, y)
      | _, _ => none) := by
  rw [pearsonPaired]
  have key : ∀ (d : List (List (String × JSValue))) (acc : List (JNum × JNum)),
      d.foldl (fun acc row =>
        match rowGet row c1, rowGet row c2 with
        | JSValue.num x, JSValue.num y => acc ++ [(x, y)]
        | _, _ => acc) acc =
      acc ++ d.filterMap (fun row =>
        match rowGet row c1, rowGet row c2 with
        | JSValue.num x, JSValue.num y => some (x, y)
        | _, _ => none) := by
    intro d
    induction d with
    | nil =>
      intro acc
      simp
    | cons r rest ih =>
      intro acc
      rw [List.foldl_cons, List.filterMap_cons]
      cases hv1 : rowGet r c1 <;> cases hv2 : rowGet r c2 <;>
        simp only [hv1, hv2] <;> rw [ih] <;> simp
  rw [key]
  simp

theorem pearson_fold_fst (qs : List (Frac × Frac)) (q0 : Frac) :
    (qs.map (fun p => (JNum.fin p.1, JNum.fin p.2))).foldl (fun a p => a.jadd p.1)
      (JNum.fin q0) = JNum.fin (qs.foldl (fun acc p => acc.add p.1) q0) := by
  induction qs generalizing q0 with
  | nil => rfl
  | cons p rest ih =>
    rw [List.map_cons, List.foldl_cons, List.foldl_cons]
    exact ih (q0.add p.1)

theorem pearson_fold_snd (qs : List (Frac × Frac)) (q0 : Frac) :
    (qs.map (fun p => (JNum.fin p.1, JNum.fin p.2))).foldl (fun a p => a.jadd p.2)
      (JNum.fin q0) = JNum.fin (qs.foldl (fun acc p => acc.add p.2) q0) := by
  induction qs generalizing q0 with
  | nil => rfl
  | cons p rest ih =>
    rw [List.map_cons, List.foldl_cons, List.foldl_cons]
    exact ih (q0.add p.2)

theorem pearson_fold_sums (qs : List (Frac × Frac)) (mx my : Frac) (t1 t2 t3 : Frac) :
    (qs.map (fun p => (JNum.fin p.1, JNum.fin p.2))).foldl
      (fun (t : JNum × JNum × JNum) p =>
        (t.1.jadd ((p.1.jsub (JNum.fin mx)).jmul (p.2.jsub (JNum.fin my))),
         t.2.1.jadd ((p.1.jsub (JNum.fin mx)).jmul (p.1.jsub (JNum.fin mx))),
         t.2.2.jadd ((p.2.jsub (JNum.fin my)).jmul (p.2.jsub (JNum.fin my)))))
      (JNum.fin t1, JNum.fin t2, JNum.fin t3) =
      (JNum.fin (qs.foldl (fun acc p => acc.add ((p.1.add mx.neg).mul (p.2.add my.neg))) t1),
       JNum.fin (qs.foldl (fun acc p => acc.add ((p.1.add mx.neg).mul (p.1.add mx.neg))) t2),
       JNum.fin (qs.foldl (fun acc p => acc.add ((p.2.add my.neg).mul (p.2.add my.neg))) t3)) := by
  induction qs generalizing t1 t2 t3 with
  | nil => rfl
  | cons p rest ih =>
    rw [List.map_cons, List.foldl_cons, List.foldl_cons, List.foldl_cons, List.foldl_cons]
    exact ih (t1.add ((p.1.add mx.neg).mul (p.2.add my.neg)))
      (t2.add ((p.1.add mx.neg).mul (p.1.add mx.neg)))
      (t3.add ((p.2.add my.neg).mul (p.2.add my.neg)))

theorem val_fold_addg (g : Frac × Frac → Frac) (qs : List (Frac × Frac)) (q0 : Frac) :
    (qs.foldl (fun acc p => acc.add (g p)) q0).val =
      q0.val + (qs.map (fun p => (g p).val)).sum := by
  induction qs generalizing q0 with
  | nil => simp
  | cons p rest ih =>
    rw [List.foldl_cons, List.map_cons, List.sum_cons, ih (q0.add (g p)), Frac.val_add]
    ring

theorem pearson_finite_nan_iff (data : List (List (String × JSValue))) (c1 c2 : String)
    (qs : List (Frac × Frac))
    (hq : pearsonPaired data c1 c2 = qs.map (fun p => (JNum.fin p.1, JNum.fin p.2)))
    (hn : ¬ qs.length < 2) :
    ((pearsonFromData data c1 c2).isNaN = true ↔
      devSS (qs.map (fun p => p.1.val)) = 0 ∨ devSS (qs.map (fun p => p.2.val)) = 0) := by
  have hnn : 2 ≤ qs.length := by omega
  have hofn : (Frac.ofInt (qs.length : Int)).n ≠ 0 := by
    rw [ofInt_n]
    omega
  simp only [pearsonFromData]
  rw [hq, List.length_map, if_neg hn]
  rw [pearson_fold_fst qs (Frac.ofInt 0), pearson_fold_snd qs (Frac.ofInt 0)]
  rw [JNum.jdiv_fin _ _ hofn, JNum.jdiv_fin _ _ hofn]
  rw [pearson_fold_sums]
  dsimp only
  have hnm1 : ((Frac.ofInt (qs.length : Int)).sub (Frac.ofInt 1)).n ≠ 0 := by
    show (qs.length : Int) * 1 + -1 * 1 ≠ 0
    omega
  rw [JNum.jdiv_fin _ _ hnm1, JNum.jdiv_fin _ _ hnm1, JNum.jdiv_fin _ _ hnm1]
  set MX := (qs.foldl (fun acc p => acc.add p.1) (Frac.ofInt 0)).div
    (Frac.ofInt (qs.length : Int)) with hMXdef
  set MY := (qs.foldl (fun acc p => acc.add p.2) (Frac.ofInt 0)).div
    (Frac.ofInt (qs.length : Int)) with hMYdef
  set VX := qs.foldl (fun acc p => acc.add ((p.1.add MX.neg).mul (p.1.add MX.neg)))
    (Frac.ofInt 0) with hVXdef
  set VY := qs.foldl (fun acc p => acc.add ((p.2.add MY.neg).mul (p.2.add MY.neg)))
    (Frac.ofInt 0) with hVYdef
  set NM := (Frac.ofInt (qs.length : Int)).sub (Frac.ofInt 1) with hNMdef
  -- rational values of the accumulated sums
  have hMXval : MX.val = (qs.map (fun p => p.1.val)).sum / (qs.length : ℚ) := by
    rw [hMXdef, Frac.val_div _ _ hofn]
    have h1 : (qs.foldl (fun acc p => acc.add p.1) (Frac.ofInt 0)).val =
        (Frac.ofInt 0).val + (qs.map (fun p => p.1.val)).sum :=
      val_fold_addg (fun p => p.1) qs (Frac.ofInt 0)
    rw [h1, Frac.val_ofInt, Frac.val_ofInt]
    push_cast
    ring
  have hMYval : MY.val = (qs.map (fun p => p.2.val)).sum / (qs.length : ℚ) := by
    rw [hMYdef, Frac.val_div _ _ hofn]
    have h1 : (qs.foldl (fun acc p => acc.add p.2) (Frac.ofInt 0)).val =
        (Frac.ofInt 0).val + (qs.map (fun p => p.2.val)).sum :=
      val_fold_addg (fun p => p.2) qs (Frac.ofInt 0)
    rw [h1, Frac.val_ofInt, Frac.val_ofInt]
    push_cast
    ring
  have hVXval : VX.val = devSS (qs.map (fun p => p.1.val)) := by
    rw [hVXdef]
    have h1 : (qs.foldl (fun acc p => acc.add ((p.1.add MX.neg).mul (p.1.add MX.neg)))
        (Frac.ofInt 0)).val =
        (Frac.ofInt 0).val + (qs.map (fun p =>
          ((p.1.add MX.neg).mul (p.1.add MX.neg)).val)).sum :=
      val_fold_addg (fun p => (p.1.add MX.neg).mul (p.1.add MX.neg)) qs (Frac.ofInt 0)
    rw [h1, Frac.val_ofInt, Int.cast_zero, zero_add, devSS, List.map_map]
    congr 1
    apply List.map_congr_left
    intro p hp
    simp only [Function.comp_apply, List.length_map]
    rw [Frac.val_mul, Frac.val_add, Frac.val_neg, hMXval]
    ring
  have hVYval : VY.val = devSS (qs.map (fun p => p.2.val)) := by
    rw [hVYdef]
    have h1 : (qs.foldl (fun acc p => acc.add ((p.2.add MY.neg).mul (p.2.add MY.neg)))
        (Frac.ofInt 0)).val =
        (Frac.ofInt 0).val + (qs.map (fun p =>
          ((p.2.add MY.neg).mul (p.2.add MY.neg)).val)).sum :=
      val_fold_addg (fun p => (p.2.add MY.neg).mul (p.2.add MY.neg)) qs (Frac.ofInt 0)
    rw [h1, Frac.val_ofInt, Int.cast_zero, zero_add, devSS, List.map_map]
    congr 1
    apply List.map_congr_left
    intro p hp
    simp only [Function.comp_apply, List.length_map]
    rw [Frac.val_mul, Frac.val_add, Frac.val_neg, hMYval]
    ring
  have hNMval : NM.val = (qs.length : ℚ) - 1 := by
    rw [hNMdef, Frac.val_sub, Frac.val_ofInt, Frac.val_ofInt]
    push_cast
    ring
  have hNMq : ((qs.length : ℚ) - 1) ≠ 0 := by
    have h2 : (2 : ℚ) ≤ (qs.length : ℚ) := by exact_mod_cast hnn
    intro hcon
    rw [sub_eq_zero] at hcon
    rw [hcon] at h2
    norm_num at h2
  have hNMpos : 0 < ((qs.length : ℚ) - 1) := by
    have h2 : (2 : ℚ) ≤ (qs.length : ℚ) := by exact_mod_cast hnn
    linarith
  have hdevnn : ∀ l : List ℚ, 0 ≤ devSS l := by
    intro l
    apply List.sum_nonneg
    intro x hx
    rcases List.mem_map.mp hx with ⟨y, _, rfl⟩
    exact mul_self_nonneg _
  have hWxnn : ¬ (VX.div NM).n < 0 := by
    have hv : 0 ≤ (VX.div NM).val := by
      rw [Frac.val_div _ _ hnm1, hVXval, hNMval]
      exact div_nonneg (hdevnn _) (le_of_lt hNMpos)
    have := (Frac.val_nonneg_iff _).mp hv
    omega
  have hWynn : ¬ (VY.div NM).n < 0 := by
    have hv : 0 ≤ (VY.div NM).val := by
      rw [Frac.val_div _ _ hnm1, hVYval, hNMval]
      exact div_nonneg (hdevnn _) (le_of_lt hNMpos)
    have := (Frac.val_nonneg_iff _).mp hv
    omega
  rw [JNum.jsqrt_fin _ hWxnn, JNum.jsqrt_fin _ hWynn, qsqrt_eq, qsqrt_eq]
  rw [JNum.jbeq_fin, JNum.jbeq_fin]
  have hbx : ((VX.div NM).beq (Frac.ofInt 0) = true) ↔
      devSS (qs.map (fun p => p.1.val)) = 0 := by
    rw [Frac.beq_iff, Frac.val_ofInt, Frac.val_div _ _ hnm1, hVXval, hNMval]
    rw [show ((0 : Int) : ℚ) = 0 from rfl, div_eq_zero_iff]
    simp [hNMq]
  have hby : ((VY.div NM).beq (Frac.ofInt 0) = true) ↔
      devSS (qs.map (fun p => p.2.val)) = 0 := by
    rw [Frac.beq_iff, Frac.val_ofInt, Frac.val_div _ _ hnm1, hVYval, hNMval]
    rw [show ((0 : Int) : ℚ) = 0 from rfl, div_eq_zero_iff]
    simp [hNMq]
  by_cases hzx : devSS (qs.map (fun p => p.1.val)) = 0
  · rw [hbx.mpr hzx, Bool.true_or, if_pos rfl]
    simp [JNum.isNaN, hzx]
  · have hbxf : (VX.div NM).beq (Frac.ofInt 0) = false := by
      rw [Bool.eq_false_iff]
      intro hc
      exact hzx (hbx.mp hc)
    by_cases hzy : devSS (qs.map (fun p => p.2.val)) = 0
    · rw [hbxf, hby.mpr hzy, Bool.or_true, if_pos rfl]
      simp [JNum.isNaN, hzy]
    · have hbyf : (VY.div NM).beq (Frac.ofInt 0) = false := by
        rw [Bool.eq_false_iff]
        intro hc
        exact hzy (hby.mp hc)
      rw [hbxf, hbyf, Bool.or_self, if_neg Bool.false_ne_true]
      rw [JNum.jmul_fin]
      have hxne : (VX.div NM).n ≠ 0 := by
        intro h0
        apply hzx
        have hv0 : (VX.div NM).val = 0 := (Frac.val_eq_zero_iff _).mpr h0
        rw [Frac.val_div _ _ hnm1, hVXval, hNMval, div_eq_zero_iff] at hv0
        rcases hv0 with h | h
        · exact h
        · exact absurd h hNMq
      have hyne : (VY.div NM).n ≠ 0 := by
        intro h0
        apply hzy
        have hv0 : (VY.div NM).val = 0 := (Frac.val_eq_zero_iff _).mpr h0
        rw [Frac.val_div _ _ hnm1, hVYval, hNMval, div_eq_zero_iff] at hv0
        rcases hv0 with h | h
        · exact h
        · exact absurd h hNMq
      have hprod : ((VX.div NM).mul (VY.div NM)).n ≠ 0 := by
        show (VX.div NM).n * (VY.div NM).n ≠ 0
        exact mul_ne_zero hxne hyne
      rw [JNum.jdiv_fin _ _ hprod]
      simp [JNum.isNaN, hzx, hzy]

/-- A row in which the two columns do not both hold finite numbers
contributes nothing to `finitePairs`. -/
theorem finitePairs_cons_skip (row : List (String × JSValue))
    (d : List (List (String × JSValue))) (c1 c2 : String)
    (h : ∀ a b, ¬(rowGet row c1 = JSValue.num (JNum.fin a) ∧
      rowGet row c2 = JSValue.num (JNum.fin b))) :
    finitePairs (row :: d) c1 c2 = finitePairs d c1 c2 := by
  rw [finitePairs, List.filterMap_cons]
  cases hv1 : rowGet row c1 <;> cases hv2 : rowGet row c2 <;>
    first
    | rfl
    | (rename_i x y
       cases x <;> cases y <;>
         first
         | rfl
         | exact absurd ⟨hv1, hv2⟩ (h _ _))
    | (rename_i y
       cases y <;> rfl)

/-- When every both-number row actually holds a pair of finite numbers, the
code's paired list and the claim's finite-pair list coincide (the latter is
the former without the `fin` wrappers). -/
theorem finitePairs_of_paired (data : List (List (String × JSValue))) (c1 c2 : String)
    (qs : List (Frac × Frac))
    (hq : pearsonPaired data c1 c2 = qs.map (fun p => (JNum.fin p.1, JNum.fin p.2))) :
    finitePairs data c1 c2 = qs := by
  rw [pearsonPaired_eq] at hq
  revert hq
  induction data generalizing qs with
  | nil =>
    intro hq
    cases qs with
    | nil => rfl
    | cons q qs2 => simp at hq
  | cons row d ih =>
    intro hq
    rw [List.filterMap_cons] at hq
    cases hv1 : rowGet row c1 <;> cases hv2 : rowGet row c2
    · -- both values are numbers
      simp only [hv1, hv2] at hq
      rename_i x y
      cases x with
      | fin a =>
        cases y with
        | fin b =>
          have hstep : finitePairs (row :: d) c1 c2 = (a, b) :: finitePairs d c1 c2 := by
            rw [finitePairs, List.filterMap_cons, hv1, hv2]
            rfl
          rw [hstep]
          rcases qs with _ | ⟨⟨qa, qb⟩, qs2⟩
          · simp at hq
          · simp only [List.map_cons, List.cons.injEq, Prod.mk.injEq, JNum.fin.injEq] at hq
            obtain ⟨⟨ha, hb⟩, hrest⟩ := hq
            subst ha
            subst hb
            simp only [List.cons.injEq]
            exact ⟨trivial, ih qs2 hrest⟩
        | nan => rcases qs with _ | ⟨q, qs2⟩ <;> simp at hq
        | inf => rcases qs with _ | ⟨q, qs2⟩ <;> simp at hq
        | ninf => rcases qs with _ | ⟨q, qs2⟩ <;> simp at hq
      | nan => rcases qs with _ | ⟨q, qs2⟩ <;> simp at hq
      | inf => rcases qs with _ | ⟨q, qs2⟩ <;> simp at hq
      | ninf => rcases qs with _ | ⟨q, qs2⟩ <;> simp at hq
    all_goals
      simp only [hv1, hv2] at hq
    all_goals
      rw [finitePairs_cons_skip row d c1 c2 (by
        intro a b hab
        rw [hv1, hv2] at hab
        rcases hab with ⟨hab1, hab2⟩
        simp at hab1 hab2)]
    all_goals
      exact ih qs hq

/-- The pairwise dispatch picks Pearson when both columns are numeric. -/
theorem pairStat_numeric (stats : List (String × ColStat))
    (data : List (List (String × JSValue))) (c1 c2 : String)
    (h1 : getType (statLookup stats c1) = "numeric")
    (h2 : getType (statLookup stats c2) = "numeric") :
    pairStat stats data c1 c2 = pearsonFromData data c1 c2 := by
  rw [pairStat]
  simp [h1, h2]

/-- C5 (amended): for an ordered pair of actual columns both classified
numeric, with association enabled and at most 50 columns, the Pearson cell
is computed over the rows where both values are numbers of ANY kind (the
code applies no finiteness filter); when all those paired values happen to
be finite — the `qs` hypothesis — the claim's finite-pair set coincides
with the code's paired set, and the cell is stored if and only if there are
at least 2 paired observations and both variables have nonzero sum of
squared deviations (equivalently, nonzero sample variance) over them. -/
theorem C5_pearson_cell (data : List (List (String × JSValue))) (opts : ProfileOptions)
    (c1 c2 : String) (M : List (String × String × JNum)) (qs : List (Frac × Frac))
    (h1 : opts.associationMatrix = true)
    (hM : (profile data opts).associationMatrix = some M)
    (hcap : (profile data opts).columns.length ≤ 50)
    (hc1 : c1 ∈ (profile data opts).columns) (hc2 : c2 ∈ (profile data opts).columns)
    (hlt : c1 < c2)
    (ht1 : getType (statLookup (profile data opts).columnStats c1) = "numeric")
    (ht2 : getType (statLookup (profile data opts).columnStats c2) = "numeric")
    (hq : pearsonPaired data c1 c2 = qs.map (fun p => (JNum.fin p.1, JNum.fin p.2))) :
    finitePairs data c1 c2 = qs ∧
    assocLookup M c1 c2 =
      (if (pearsonFromData data c1 c2).isNaN then none
       else some (pearsonFromData data c1 c2)) ∧
    ((assocLookup M c1 c2).isSome = true ↔
      2 ≤ qs.length ∧ devSS (qs.map (fun p => p.1.val)) ≠ 0 ∧
        devSS (qs.map (fun p => p.2.val)) ≠ 0) := by
  have hne : data ≠ [] := by
    intro hnil
    subst hnil
    rw [profile] at hM
    simp at hM
  rw [profile_assoc _ opts hne, h1, if_pos rfl] at hM
  rw [profile_columns _ opts hne] at hcap hc1 hc2
  rw [profile_columnStats _ opts hne] at ht1 ht2
  have hMe : M = assocOf (pairStat (columnStatsOf data) data) (pairsOf (columnsOf data)) := by
    have h2 := Option.some_inj.mp hM
    rw [computeAssociationMatrix_eq, if_neg (by omega)] at h2
    exact h2.symm
  subst hMe
  have hsl := columnsOf_sorted_lt data
  have hne2 := pairsOf_ne _ hsl
  have hfound := assocOf_lookup_found (pairStat (columnStatsOf data) data)
    (pairsOf (columnsOf data)) hne2 (pairsOf_nodup _ hsl) (pairsOf_asc _ hsl)
    c1 c2 (pairsOf_mem_of _ hsl c1 c2 hc1 hc2 hlt)
  rw [pairStat_numeric _ _ _ _ ht1 ht2] at hfound
  refine ⟨finitePairs_of_paired data c1 c2 qs hq, hfound, ?_⟩
  rw [hfound]
  by_cases hlen : qs.length < 2
  · have hnan : (pearsonFromData data c1 c2).isNaN = true := by
      simp only [pearsonFromData]
      rw [hq, List.length_map, if_pos hlen]
      rfl
    rw [if_pos hnan]
    simp only [Option.isSome_none, Bool.false_eq_true, false_iff]
    rintro ⟨h2, _, _⟩
    omega
  · have hiff := pearson_finite_nan_iff data c1 c2 qs hq hlen
    by_cases hnan : (pearsonFromData data c1 c2).isNaN = true
    · rw [if_pos hnan]
      simp only [Option.isSome_none, Bool.false_eq_true, false_iff]
      rintro ⟨_, hx, hy⟩
      rcases hiff.mp hnan with h | h
      · exact hx h
      · exact hy h
    · rw [if_neg hnan]
      simp only [Option.isSome_some, true_iff]
      refine ⟨by omega, ?_, ?_⟩
      · intro hx
        exact hnan (hiff.mpr (Or.inl hx))
      · intro hy
        exact hnan (hiff.mpr (Or.inr hy))

/-- A table whose numeric column `a` holds one `NaN`: the finite pairs alone
satisfy all of the claim's conditions, yet the cell is omitted because the
code pairs on `typeof === "number"` (NaN included), not on finiteness. -/
def c5CexData : List (List (String × JSValue)) :=
  [[("a", JSValue.num JNum.nan), ("b", JSValue.num (JNum.fin (Frac.ofInt 0)))],
   [("a", JSValue.num (JNum.fin (Frac.ofInt 0))), ("b", JSValue.num (JNum.fin (Frac.ofInt 1)))],
   [("a", JSValue.num (JNum.fin (Frac.ofInt 1))), ("b", JSValue.num (JNum.fin (Frac.ofInt 2)))]]

/-- C5 counterexample: both columns are numeric, the association matrix is
computed, and over the rows where both values are present finite numbers
there are 2 paired observations with nonzero squared-deviation sums in both
variables — the claim then promises a stored cell — yet `matrix[a][b]` is
omitted, because the code also pairs the `NaN` row. -/
theorem C5_counterexample :
    2 ≤ (finitePairs c5CexData "a" "b").length ∧
    devSS ((finitePairs c5CexData "a" "b").map (fun p => p.1.val)) ≠ 0 ∧
    devSS ((finitePairs c5CexData "a" "b").map (fun p => p.2.val)) ≠ 0 ∧
    getType (statLookup (profile c5CexData ⟨true, false, false, false, false⟩).columnStats "a")
      = "numeric" ∧
    getType (statLookup (profile c5CexData ⟨true, false, false, false, false⟩).columnStats "b")
      = "numeric" ∧
    (profile c5CexData ⟨true, false, false, false, false⟩).columns = ["a", "b"] ∧
    ((profile c5CexData ⟨true, false, false, false, false⟩).associationMatrix).isSome = true ∧
    assocLookup
      ((profile c5CexData ⟨true, false, false, false, false⟩).associationMatrix.getD [])
      "a" "b" = none := by
  have hfp : finitePairs c5CexData "a" "b" =
      [(Frac.ofInt 0, Frac.ofInt 1), (Frac.ofInt 1, Frac.ofInt 2)] := rfl
  refine ⟨by rw [hfp]; decide, ?_, ?_, rfl, rfl, rfl, rfl, rfl⟩
  · rw [hfp]
    simp only [List.map_cons, List.map_nil, Frac.val_ofInt]
    norm_num [devSS]
  · rw [hfp]
    simp only [List.map_cons, List.map_nil, Frac.val_ofInt]
    norm_num [devSS]

def c5WitData : List (List (String × JSValue)) :=
  [[("u", JSValue.num (JNum.fin (Frac.ofInt 1))), ("v", JSValue.num (JNum.fin (Frac.ofInt 2)))],
   [("u", JSValue.num (JNum.fin (Frac.ofInt 2))), ("v", JSValue.num (JNum.fin (Frac.ofInt 4)))],
   [("u", JSValue.num (JNum.fin (Frac.ofInt 3))), ("v", JSValue.num (JNum.fin (Frac.ofInt 5)))]]

def c5WitQs : List (Frac × Frac) :=
  [(Frac.ofInt 1, Frac.ofInt 2), (Frac.ofInt 2, Frac.ofInt 4), (Frac.ofInt 3, Frac.ofInt 5)]

theorem C5_pearson_cell_witness :
    finitePairs c5WitData "u" "v" = c5WitQs ∧
    ((assocLookup
        ((profile c5WitData ⟨true, false, false, false, false⟩).associationMatrix.getD [])
        "u" "v").isSome = true ↔
      2 ≤ c5WitQs.length ∧ devSS (c5WitQs.map (fun p => p.1.val)) ≠ 0 ∧
        devSS (c5WitQs.map (fun p => p.2.val)) ≠ 0) :=
  have h := C5_pearson_cell c5WitData ⟨true, false, false, false, false⟩ "u" "v"
    ((profile c5WitData ⟨true, false, false, false, false⟩).associationMatrix.getD [])
    c5WitQs rfl rfl (by decide) (by decide) (by decide)
    (lt_iff_le_and_ne.mpr ⟨(strLe_iff "u" "v").mp (by decide), by decide⟩) rfl rfl rfl
  ⟨h.1, h.2.2⟩
